import Mathlib

/-!
Verification of the project-timeline scheduling engine of the YouTrack MCP
integration (source: `src/youtrack-client.ts` and `src/utils.ts`).

The TypeScript core is shallowly embedded here:

* JavaScript `number` timestamps/durations are modelled as `Int` milliseconds
  (all values of interest are integers well inside the float64-exact range);
  the day-valued quantities that the source computes with float division
  (`slack`, `duration` in days) are modelled as exact rationals `ℚ`.
* A JavaScript value of static type `string | undefined` is modelled as
  `Option String` (`none` = `undefined`); likewise for optional numbers.
* JavaScript truthiness on numbers (`x || y`, `x && y`) is modelled
  explicitly: `0` and `undefined` are falsy (`jsTruthy`, `jsOr`).
* A JavaScript `Map` is modelled as an insertion-ordered association list
  (`assocGet` / `assocSet` / `assocHas` mirror `get` / `set` / `has`).
* The recursive CPM passes are modelled with explicit fuel standing for the
  JavaScript call-stack budget: exhausting the fuel yields the same
  `RangeError` that V8 raises on stack overflow, and reading a property of a
  `Map.get` miss yields a `TypeError`, so fallible code returns
  `Except String _`.
* Record fields of `GanttTask` that none of the verified components read
  (description, progress, story points, priority, state, type, children,
  parent) are omitted from the embedding.
-/

/-- A JS `string | undefined` value; `none` is `undefined`. -/
abbrev NodeId := Option String

/-- Truthiness of an optional JS number: `undefined` and `0` are falsy. -/
def jsTruthy : Option Int → Bool
  | some n => n ≠ 0
  | none => false

/-- JS `a || b` for an optional number `a` and a number `b`:
falls through to `b` when `a` is `undefined` or `0`. -/
def jsOr (a : Option Int) (b : Int) : Int :=
  match a with
  | some n => if n ≠ 0 then n else b
  | none => b

/-- `Math.ceil(a / b)` for integers `a` and positive `b`
(the source divides millisecond spans by `86_400_000`). -/
def jsCeilDiv (a b : Int) : Int := -((-a).fdiv b)

/-- `Number.MAX_SAFE_INTEGER`, the initial accumulator of the timeline
minimum computation. -/
def maxSafeInteger : Int := 9007199254740991

/-- `Math.max(...)` over a list; the empty case is unreachable at every use
site (the callers guard on a non-empty task set). -/
def maxList : List Int → Int
  | [] => 0
  | x :: xs => xs.foldl max x

/-- `Math.min(...)` over a list; empty case unreachable as for `maxList`. -/
def minList : List Int → Int
  | [] => 0
  | x :: xs => xs.foldl min x

/-- Boolean list membership by decidable equality (JS `Set.has` /
`Array.includes` over primitive values). -/
def elemB {α : Type} [DecidableEq α] : List α → α → Bool
  | [], _ => false
  | y :: ys, x => if y = x then true else elemB ys x

/-- JS `Array.indexOf` for an element known to be present (the source only
calls it on such elements); returns the length when absent. -/
def idxOf {α : Type} [DecidableEq α] : List α → α → Nat
  | [], _ => 0
  | y :: ys, x => if y = x then 0 else idxOf ys x + 1

/-- `Map.get`: first binding of the key in the insertion-ordered list. -/
def assocGet {κ α : Type} [DecidableEq κ] : List (κ × α) → κ → Option α
  | [], _ => none
  | p :: ps, k => if p.1 = k then some p.2 else assocGet ps k

/-- `Map.has`. -/
def assocHas {κ α : Type} [DecidableEq κ] : List (κ × α) → κ → Bool
  | [], _ => false
  | p :: ps, k => if p.1 = k then true else assocHas ps k

/-- `Map.set`: replaces the value in place when the key exists, otherwise
appends a new binding (JS `Map` preserves first-insertion order). -/
def assocSet {κ α : Type} [DecidableEq κ] (m : List (κ × α)) (k : κ) (v : α) :
    List (κ × α) :=
  if assocHas m k then m.map (fun p => if p.1 = k then (k, v) else p)
  else m ++ [(k, v)]

/-- `map.get(k)?.push(v)` on a map of arrays: appends to the entry when the
key exists and is a silent no-op otherwise (also models `map.get(k)!.push(v)`
at call sites where the key is known to be present). -/
def assocAppendAt {κ α : Type} [DecidableEq κ] (m : List (κ × List α)) (k : κ)
    (v : α) : List (κ × List α) :=
  m.map (fun p => if p.1 = k then (p.1, p.2 ++ [v]) else p)

/-- `if (!map.has(k)) map.set(k, []); map.get(k)!.push(v)` — the grouping
idiom of the resource-overlap check. -/
def assocGroupAdd {κ α : Type} [DecidableEq κ] (m : List (κ × List α)) (k : κ)
    (v : α) : List (κ × List α) :=
  if assocHas m k then assocAppendAt m k v else m ++ [(k, [v])]

/-- Stable insertion preserving the relative order of `le`-equivalent
elements (JS `Array.prototype.sort` is stable). -/
def insertByLe {α : Type} (le : α → α → Bool) (x : α) : List α → List α
  | [] => [x]
  | y :: ys => if le x y then x :: y :: ys else y :: insertByLe le x ys

/-- Stable sort by a boolean `le` (models a stable JS comparator sort). -/
def sortByLe {α : Type} (le : α → α → Bool) : List α → List α
  | [] => []
  | x :: xs => insertByLe le x (sortByLe le xs)

/-- `String.prototype.toLowerCase` on the ASCII field and type names the
engine compares (a kernel-computable form of `String.toLower`). -/
def jsToLower (s : String) : String := String.mk (s.data.map Char.toLower)

/-- `sub` occurs as a substring of `s` (JS `String.prototype.includes`). -/
def strHasSub (s sub : String) : Bool :=
  (List.range (s.length + 1)).any (fun i => sub.toList.isPrefixOf (s.toList.drop i))

/- ## Data model -/

/-- A YouTrack user reference (only the fields the engine reads). -/
structure YUser where
  id : String
  fullName : String
deriving DecidableEq, Repr

/-- A `{minutes, presentation}` period value (estimation / spent time). -/
structure Period where
  minutes : Int
  presentation : String
deriving DecidableEq, Repr

/-- The `linkType` payload carried on a dependency. -/
structure LinkTypeInfo where
  id : String
  name : String
  sourceToTarget : String
  targetToSource : String
deriving DecidableEq, Repr

/-- `GanttDependency` from the source interfaces. -/
structure GanttDependency where
  id : String
  type : String
  targetTaskId : String
  targetTaskIdReadable : String
  linkType : LinkTypeInfo
deriving DecidableEq, Repr

/-- `GanttTask`, restricted to the fields the verified components read.
`idReadable` is `Option String` because the raw JSON payload may lack it at
runtime (the TypeScript annotation is not enforced) and the converter passes
it through unchecked. -/
structure GanttTask where
  id : String
  idReadable : NodeId
  summary : String
  projectId : String
  projectName : String
  projectShortName : String
  assignee : Option YUser
  startDate : Option Int
  dueDate : Option Int
  created : Int
  updated : Int
  resolved : Option Int
  estimation : Option Period
  spentTime : Option Period
  dependencies : List GanttDependency
deriving DecidableEq, Repr

/-- `GanttConflict`. -/
structure GanttConflict where
  type : String
  taskIds : List NodeId
  description : String
  severity : String
deriving DecidableEq, Repr

/-- The `timeline` component of `GanttChartData`. -/
structure Timeline where
  startDate : Int
  endDate : Int
  duration : Int
deriving DecidableEq, Repr

/-- One entry of `CriticalPathResult.tasks`. -/
structure CPTaskMetric where
  id : String
  idReadable : NodeId
  summary : String
  startDate : Option Int
  dueDate : Option Int
  duration : ℚ
  slack : ℚ
deriving DecidableEq, Repr

/-- `CriticalPathResult`. -/
structure CriticalPathResult where
  path : List NodeId
  duration : ℚ
  tasks : List CPTaskMetric
deriving DecidableEq, Repr

/-- A project reference on a raw issue. -/
structure RawProject where
  id : String
  name : String
  shortName : String
deriving DecidableEq, Repr

/-- The shapes of custom-field values the engine inspects. `vnull` is a JS
`null`/`undefined` value; `num` a plain timestamp; `timestampObj` a
`{timestamp}` wrapper; `period` a `{minutes, presentation}` duration. String
date values (parsed through `Date`) are outside this embedding. -/
inductive FieldValue where
  | vnull
  | num (n : Int)
  | timestampObj (ts : Int)
  | period (minutes : Int) (presentation : String)
deriving DecidableEq, Repr

/-- One raw custom field. -/
structure RawField where
  name : String
  value : FieldValue
deriving DecidableEq, Repr

/-- A raw work item as it reaches `convertIssueToGanttTaskSimplified`:
`idReadable` and `project` are optional because the runtime payload may lack
them even though the TypeScript interface declares them required. -/
structure RawIssue where
  id : String
  idReadable : NodeId
  summary : String
  project : Option RawProject
  assignee : Option YUser
  created : Int
  updated : Int
  resolved : Option Int
  customFields : Option (List RawField)
deriving DecidableEq, Repr

/- ## utils.ts: date-field helpers -/

/-- `isStartDateField` from `utils.ts`. -/
def isStartDateField (fieldName : String) : Bool :=
  let name := jsToLower fieldName
  (strHasSub name "start" && strHasSub name "date") ||
  name == "start date" || name == "startdate" || name == "start_date"

/-- `isDueDateField` from `utils.ts`. -/
def isDueDateField (fieldName : String) : Bool :=
  let name := jsToLower fieldName
  (strHasSub name "due" && strHasSub name "date") ||
  (strHasSub name "end" && strHasSub name "date") ||
  (strHasSub name "target" && strHasSub name "date") ||
  name == "due date" || name == "duedate" || name == "due_date" ||
  name == "end date" || name == "enddate" || name == "end_date" ||
  name == "target date" || name == "targetdate" || name == "target_date"

/-- `parseDateFieldValue` from `utils.ts` on the embedded value shapes:
falsy input (`undefined`, `null`, `0`) gives `undefined`; a number is
returned as-is; an object with a truthy numeric `timestamp` yields it; any
other object falls through to `new Date(object)`, which is `NaN` and hence
`undefined`. -/
def parseDateFieldValue : FieldValue → Option Int
  | .vnull => none
  | .num n => if n = 0 then none else some n
  | .timestampObj ts => if ts = 0 then none else some ts
  | .period _ _ => none

/-- Truthiness of a custom-field value (`field.value` guards in the
converter): `null`/`undefined` and the number `0` are falsy; objects are
truthy. -/
def fvTruthy : FieldValue → Bool
  | .vnull => false
  | .num n => n ≠ 0
  | .timestampObj _ => true
  | .period _ _ => true

/-- `field.value.minutes || 0`. -/
def fvMinutes : FieldValue → Int
  | .period m _ => m
  | _ => 0

/-- `field.value.presentation || '0m'` (the empty string is falsy). -/
def fvPresentation : FieldValue → String
  | .period _ p => if p == "" then "0m" else p
  | _ => "0m"

/- ## Task Model Builder: convertIssueToGanttTaskSimplified -/

/-- The mutable locals of the converter's custom-field loop. -/
structure FieldExtract where
  startDate : Option Int
  dueDate : Option Int
  estimation : Option Period
  spentTime : Option Period
deriving DecidableEq, Repr

/-- One iteration of the converter's `for (const field of issue.customFields)`
loop (branches for story points / priority / state / type touch only fields
omitted from this embedding and are elided). A date assignment happens only
when the parsed value is truthy (`if (parsedDate)`), so a later matching
attribute overwrites an earlier one. -/
def processField (st : FieldExtract) (f : RawField) : FieldExtract :=
  let fieldName := jsToLower f.name
  if isStartDateField fieldName then
    match parseDateFieldValue f.value with
    | some d => { st with startDate := some d }
    | none => st
  else if isDueDateField fieldName then
    match parseDateFieldValue f.value with
    | some d => { st with dueDate := some d }
    | none => st
  else if fieldName == "estimation" && fvTruthy f.value then
    { st with estimation := some ⟨fvMinutes f.value, fvPresentation f.value⟩ }
  else if fieldName == "spent time" && fvTruthy f.value then
    { st with spentTime := some ⟨fvMinutes f.value, fvPresentation f.value⟩ }
  else st

/-- `convertIssueToGanttTaskSimplified`: extracts dates and durations from
the custom fields, then builds the task record. The only runtime failure is
the `issue.project.id` access when `project` is absent (a `TypeError`); a
missing `idReadable` flows through silently. The produced task always has
`dependencies: []`. -/
def convertIssueToGanttTaskSimplified (issue : RawIssue) : Except String GanttTask :=
  let ext := (issue.customFields.getD []).foldl processField ⟨none, none, none, none⟩
  match issue.project with
  | none => .error "TypeError: Cannot read properties of undefined"
  | some proj =>
    .ok { id := issue.id
          idReadable := issue.idReadable
          summary := issue.summary
          projectId := proj.id
          projectName := proj.name
          projectShortName := proj.shortName
          assignee := issue.assignee
          startDate := ext.startDate
          dueDate := ext.dueDate
          created := issue.created
          updated := issue.updated
          resolved := issue.resolved
          estimation := ext.estimation
          spentTime := ext.spentTime
          dependencies := [] }

/-- The task-building loop of `getGanttData`: at most 50 issues are
processed (`slice(0, 50)`), each is converted in a `try`/`catch` that skips
failing issues and keeps the rest. (The query construction and HTTP fetch
feeding this loop are I/O glue outside the engine.) -/
def getGanttDataTasks (issues : List RawIssue) : List GanttTask :=
  (issues.take 50).filterMap (fun i => (convertIssueToGanttTaskSimplified i).toOption)

/- ## Timeline Aggregator: calculateTimeline -/

/-- `task.startDate || task.created`. -/
def tlStart (t : GanttTask) : Int := jsOr t.startDate t.created

/-- `task.dueDate || task.resolved || task.updated`. -/
def tlEnd (t : GanttTask) : Int := jsOr t.dueDate (jsOr t.resolved t.updated)

/-- `calculateTimeline`: on an empty task list returns `{now, now, 0}`;
otherwise folds the per-task start (min, from `MAX_SAFE_INTEGER`) and end
(max, from `0`) and takes `Math.ceil` of the day quotient. -/
def calculateTimeline (now : Int) (tasks : List GanttTask) : Timeline :=
  if tasks.isEmpty then ⟨now, now, 0⟩
  else
    let earliestStart := tasks.foldl (fun acc t => min acc (tlStart t)) maxSafeInteger
    let latestEnd := tasks.foldl (fun acc t => max acc (tlEnd t)) 0
    ⟨earliestStart, latestEnd, jsCeilDiv (latestEnd - earliestStart) 86400000⟩

/- ## Conflict Detector: detectConflicts -/

/-- `datesOverlap`: closed-interval overlap, touching endpoints included. -/
def datesOverlap (start1 end1 start2 end2 : Int) : Bool :=
  start1 ≤ end2 && start2 ≤ end1

/-- The mutable state shared by `findDependencyCycles`' DFS closure:
`visited`, the recursion-stack set `stk`, the current `path`, and the
accumulated `cycles`. On an early `return true` (cycle found) the stack and
path are deliberately not popped, exactly as in the source. -/
structure DfsState where
  visited : List NodeId
  stk : List NodeId
  path : List NodeId
  cycles : List (List NodeId)
deriving DecidableEq, Repr

/-- The recursive `dfs` of `findDependencyCycles`. `fuel` is the call-stack
budget; it is chosen large enough at the call site (`cycleFuel`) that the
`0` branch is never reached, since each non-shortcut call adds a new node to
`visited` and the node universe is finite. Revisiting a node on the stack
records `path.slice(path.indexOf(node)).concat([node])` as a cycle and
returns `true`, which short-circuits the neighbour loop all the way up. -/
def cycleDfs (g : List (NodeId × List NodeId)) (fuel : Nat) (s : DfsState)
    (node : NodeId) : DfsState × Bool :=
  match fuel with
  | 0 => (s, false)
  | f + 1 =>
    if elemB s.stk node then
      ({ s with cycles := s.cycles ++ [s.path.drop (idxOf s.path node) ++ [node]] }, true)
    else if elemB s.visited node then
      (s, false)
    else
      let s1 : DfsState :=
        ⟨s.visited ++ [node], s.stk ++ [node], s.path ++ [node], s.cycles⟩
      let r := ((assocGet g node).getD []).foldl
        (fun acc n => if acc.2 then acc else cycleDfs g f acc.1 n) (s1, false)
      if r.2 then r
      else ({ r.1 with stk := r.1.stk.erase node, path := r.1.path.dropLast }, false)

/-- A stack budget sufficient for `cycleDfs` on `g`: the DFS depth is
bounded by the number of distinct nodes, which is at most the number of
keys plus the number of edge targets. -/
def cycleFuel (g : List (NodeId × List NodeId)) : Nat :=
  g.length + (g.map (fun p => p.2.length)).sum + 1

/-- `findDependencyCycles`: DFS from every unvisited key, sharing `visited`
and the cycle accumulator across roots. -/
def findDependencyCycles (g : List (NodeId × List NodeId)) : List (List NodeId) :=
  let final := (g.map (fun p => p.1)).foldl
    (fun s k => if elemB s.visited k then s else (cycleDfs g (cycleFuel g) s k).1)
    ⟨[], [], [], []⟩
  final.cycles

/-- `cycle.join(' → ')`; JS `Array.join` renders `undefined` as the empty
string. -/
def joinArrow (cy : List NodeId) : String :=
  String.intercalate " → " (cy.map (fun o => o.getD ""))

/-- The inner pair loop of the resource-overlap check: for a fixed assignee
group, every `i < j` pair whose closed date intervals overlap yields one
`resource_conflict` (severity medium). -/
def pairConflicts (ts : List GanttTask) : List GanttConflict :=
  match ts with
  | [] => []
  | t1 :: rest =>
    rest.filterMap (fun t2 =>
      if datesOverlap (t1.startDate.getD 0) (t1.dueDate.getD 0)
          (t2.startDate.getD 0) (t2.dueDate.getD 0) then
        some ⟨"resource_conflict", [t1.idReadable, t2.idReadable],
              "Tasks overlap for assignee " ++
                (match t1.assignee with | some a => a.fullName | none => ""),
              "medium"⟩
      else none) ++ pairConflicts rest

/-- The assignee grouping of the resource-overlap check: a task joins its
assignee's group only when `task.assignee && task.startDate && task.dueDate`
is truthy (a `0` timestamp is falsy). -/
def groupByAssignee (tasks : List GanttTask) : List (String × List GanttTask) :=
  tasks.foldl (fun m t =>
    match t.assignee with
    | some a =>
      if jsTruthy t.startDate && jsTruthy t.dueDate then assocGroupAdd m a.id t
      else m
    | none => m) []

/-- `detectConflicts`: missing-dates check, dependency-cycle check over the
full dependency graph, then the same-assignee overlap check, concatenated in
source order. -/
def detectConflicts (tasks : List GanttTask) : List GanttConflict :=
  let tasksWithoutDates :=
    tasks.filter (fun t => !jsTruthy t.startDate || !jsTruthy t.dueDate)
  let missing : List GanttConflict :=
    if tasksWithoutDates.length > 0 then
      [⟨"missing_dates", tasksWithoutDates.map (fun t => t.idReadable),
        toString tasksWithoutDates.length ++ " tasks are missing start or due dates",
        "medium"⟩]
    else []
  let depGraph := tasks.foldl
    (fun m t => assocSet m t.idReadable
      (t.dependencies.map (fun d => (some d.targetTaskIdReadable : NodeId)))) []
  let cycleConfs := (findDependencyCycles depGraph).map (fun cy =>
    (⟨"dependency_cycle", cy, "Circular dependency detected: " ++ joinArrow cy,
      "high"⟩ : GanttConflict))
  let overlapConfs := (groupByAssignee tasks).foldl
    (fun acc p => acc ++ pairConflicts p.2) []
  missing ++ cycleConfs ++ overlapConfs

/- ## Critical Path Calculator -/

/-- The CPM duration in milliseconds:
`dueDate && startDate ? dueDate - startDate : (estimation?.minutes || 480) * 60 * 1000`.
Note the JS truthiness: a `0` date falls to the estimation branch and a `0`
or absent estimation falls to the 480-minute (8-hour) default. -/
def cpmDurationMs (t : GanttTask) : Int :=
  if jsTruthy t.dueDate && jsTruthy t.startDate then
    t.dueDate.getD 0 - t.startDate.getD 0
  else
    jsOr (t.estimation.map (fun p => p.minutes)) 480 * 60 * 1000

/-- The per-task duration in days reported in the metrics list (exact
rational division; `Rat.divInt` is the exact form of the source's float
division by `86_400_000` resp. `60 * 24`). -/
def cpmDurationDays (t : GanttTask) : ℚ :=
  if jsTruthy t.dueDate && jsTruthy t.startDate then
    Rat.divInt (t.dueDate.getD 0 - t.startDate.getD 0) 86400000
  else
    Rat.divInt (jsOr (t.estimation.map (fun p => p.minutes)) 480) ((60 : Int) * 24)

/-- `taskMap`: `idReadable → task`, in task order. -/
def buildTaskMap (tasks : List GanttTask) : List (NodeId × GanttTask) :=
  tasks.foldl (fun m t => assocSet m t.idReadable t) []

/-- The first graph-construction loop: every task gets an empty adjacency
list. -/
def buildEmptyAdj (tasks : List GanttTask) : List (NodeId × List NodeId) :=
  tasks.foldl (fun m t => assocSet m t.idReadable ([] : List NodeId)) []

/-- The forward half of the second graph loop:
`dependencyGraph.get(task.idReadable)!.push(dep.targetTaskIdReadable)` for
each `depends_on` dependency (the key is always present, having been
initialised by `buildEmptyAdj`). -/
def addDepEdges (tasks : List GanttTask) (g : List (NodeId × List NodeId)) :
    List (NodeId × List NodeId) :=
  tasks.foldl (fun m t =>
    t.dependencies.foldl (fun m2 d =>
      if d.type == "depends_on" then
        assocAppendAt m2 t.idReadable (some d.targetTaskIdReadable)
      else m2) m) g

/-- The reverse half of the second graph loop:
`reverseDependencyGraph.get(dep.targetTaskIdReadable)?.push(task.idReadable)`
— a silent no-op when the target is outside the task set. -/
def addRevEdges (tasks : List GanttTask) (g : List (NodeId × List NodeId)) :
    List (NodeId × List NodeId) :=
  tasks.foldl (fun m t =>
    t.dependencies.foldl (fun m2 d =>
      if d.type == "depends_on" then
        assocAppendAt m2 (some d.targetTaskIdReadable) t.idReadable
      else m2) m) g

/-- Forward adjacency (`dependencyGraph`). The source fills both adjacency
maps in one loop; the maps are independent, so the split is observationally
identical. -/
def buildDepGraph (tasks : List GanttTask) : List (NodeId × List NodeId) :=
  addDepEdges tasks (buildEmptyAdj tasks)

/-- Reverse adjacency (`reverseDependencyGraph`). -/
def buildRevGraph (tasks : List GanttTask) : List (NodeId × List NodeId) :=
  addRevEdges tasks (buildEmptyAdj tasks)

/-- The memo maps of the forward pass. -/
structure EFState where
  es : List (NodeId × Int)
  ef : List (NodeId × Int)
deriving DecidableEq, Repr

/-- `calculateEarliestTimes`. The memo check (`earliestStart.has`) happens
only on entry — the maps are written only after the recursive loop over
dependencies, so a dependency cycle re-enters unboundedly: `fuel` models the
JS call stack and its exhaustion V8's `RangeError`. A dependency id absent
from `taskMap` makes `taskMap.get(taskId)!` return `undefined` and the
subsequent `task.startDate` access throw a `TypeError`. -/
def calcEarliest (tm : List (NodeId × GanttTask)) (g : List (NodeId × List NodeId))
    (fuel : Nat) (st : EFState) (taskId : NodeId) : Except String EFState :=
  match fuel with
  | 0 => .error "RangeError: Maximum call stack size exceeded"
  | f + 1 =>
    if assocHas st.es taskId then .ok st
    else
      match assocGet tm taskId with
      | none => .error "TypeError: Cannot read properties of undefined"
      | some task =>
        let deps := (assocGet g taskId).getD []
        let folded := deps.foldl
          (fun (acc : Except String (EFState × Int)) depId =>
            match acc with
            | .error e => .error e
            | .ok (st1, m) =>
              match calcEarliest tm g f st1 depId with
              | .error e => .error e
              | .ok st2 => .ok (st2, max m ((assocGet st2.ef depId).getD 0)))
          (.ok (st, jsOr task.startDate task.created))
        match folded with
        | .error e => .error e
        | .ok (st1, m) =>
          .ok ⟨assocSet st1.es taskId m, assocSet st1.ef taskId (m + cpmDurationMs task)⟩

/-- The memo maps of the backward pass. -/
structure LFState where
  ls : List (NodeId × Int)
  lf : List (NodeId × Int)
deriving DecidableEq, Repr

/-- `calculateLatestTimes`: a task with no dependents takes its own earliest
finish as latest finish; otherwise the minimum of the dependents' latest
starts, starting from `projectEndTime`. Fuel and failure modes as in
`calcEarliest`. -/
def calcLatest (tm : List (NodeId × GanttTask)) (rg : List (NodeId × List NodeId))
    (efin : List (NodeId × Int)) (projectEnd : Int)
    (fuel : Nat) (st : LFState) (taskId : NodeId) : Except String LFState :=
  match fuel with
  | 0 => .error "RangeError: Maximum call stack size exceeded"
  | f + 1 =>
    if assocHas st.lf taskId then .ok st
    else
      match assocGet tm taskId with
      | none => .error "TypeError: Cannot read properties of undefined"
      | some task =>
        let succs := (assocGet rg taskId).getD []
        let folded : Except String (LFState × Int) :=
          if succs.isEmpty then .ok (st, (assocGet efin taskId).getD 0)
          else succs.foldl
            (fun (acc : Except String (LFState × Int)) succId =>
              match acc with
              | .error e => .error e
              | .ok (st1, m) =>
                match calcLatest tm rg efin projectEnd f st1 succId with
                | .error e => .error e
                | .ok st2 => .ok (st2, min m ((assocGet st2.ls succId).getD 0)))
            (.ok (st, projectEnd))
        match folded with
        | .error e => .error e
        | .ok (st1, m) =>
          .ok ⟨assocSet st1.ls taskId (m - cpmDurationMs task), assocSet st1.lf taskId m⟩

/-- One iteration of the forward driver loop: a previously thrown error
short-circuits, otherwise the recursive pass runs on the next key. -/
def stepEarliest (tm : List (NodeId × GanttTask)) (g : List (NodeId × List NodeId))
    (stackLimit : Nat) (acc : Except String EFState) (k : NodeId) :
    Except String EFState :=
  match acc with
  | .error e => .error e
  | .ok st => calcEarliest tm g stackLimit st k

/-- `for (const taskId of taskMap.keys()) calculateEarliestTimes(taskId)` —
each top-level call starts with the full stack budget; a thrown error
escapes the whole loop. -/
def forwardPass (tm : List (NodeId × GanttTask)) (g : List (NodeId × List NodeId))
    (stackLimit : Nat) (keys : List NodeId) : Except String EFState :=
  keys.foldl (stepEarliest tm g stackLimit) (.ok ⟨[], []⟩)

/-- One iteration of the backward driver loop. -/
def stepLatest (tm : List (NodeId × GanttTask)) (rg : List (NodeId × List NodeId))
    (efin : List (NodeId × Int)) (projectEnd : Int) (stackLimit : Nat)
    (acc : Except String LFState) (k : NodeId) : Except String LFState :=
  match acc with
  | .error e => .error e
  | .ok st => calcLatest tm rg efin projectEnd stackLimit st k

/-- The backward-pass driver loop. -/
def backwardPass (tm : List (NodeId × GanttTask)) (rg : List (NodeId × List NodeId))
    (efin : List (NodeId × Int)) (projectEnd : Int)
    (stackLimit : Nat) (keys : List NodeId) : Except String LFState :=
  keys.foldl (stepLatest tm rg efin projectEnd stackLimit) (.ok ⟨[], []⟩)

/-- The slack of one task in days:
`(latestStart.get(id)! - earliestStart.get(id)!) / 86_400_000`. -/
def slackDaysOf (efSt : EFState) (lfSt : LFState) (k : NodeId) : ℚ :=
  Rat.divInt ((assocGet lfSt.ls k).getD 0 - (assocGet efSt.es k).getD 0) 86400000

/-- The result-extraction loop of `calculateCriticalPath`: collects the
zero-slack tasks (|slack| < 0.01 days), sorts them by earliest start
(stable), computes `totalDuration`, and emits the per-task metrics sorted by
slack ascending. The source fills `criticalTasks` and `criticalPathTasks`
in one pass over `taskMap`; the two pure traversals here visit the same
entries in the same order. -/
def extractResult (tm : List (NodeId × GanttTask)) (efSt : EFState) (lfSt : LFState)
    (projectEnd : Int) : CriticalPathResult :=
  let criticalTasks := tm.foldl
    (fun acc p => if |slackDaysOf efSt lfSt p.1| < mkRat 1 100 then acc ++ [p.1] else acc)
    []
  let metrics := tm.map (fun p =>
    (⟨p.2.id, p.2.idReadable, p.2.summary, p.2.startDate, p.2.dueDate,
      cpmDurationDays p.2, slackDaysOf efSt lfSt p.1⟩ : CPTaskMetric))
  let sortedPath := sortByLe
    (fun a b => (assocGet efSt.es a).getD 0 ≤ (assocGet efSt.es b).getD 0) criticalTasks
  let totalDuration : ℚ :=
    Rat.divInt (projectEnd - minList (efSt.es.map (fun p => p.2))) 86400000
  ⟨sortedPath, totalDuration, sortByLe (fun a b => a.slack ≤ b.slack) metrics⟩

/-- Continuation after the backward pass: a thrown error propagates out of
`calculateCriticalPath`, otherwise the result is extracted. -/
def afterBackward (tm : List (NodeId × GanttTask)) (efSt : EFState)
    (projectEnd : Int) : Except String LFState → Except String CriticalPathResult
  | .error e => .error e
  | .ok lfSt => .ok (extractResult tm efSt lfSt projectEnd)

/-- Continuation after the forward pass: on success, `projectEndTime` is the
max of all earliest finishes and the backward pass runs. -/
def afterForward (tm : List (NodeId × GanttTask)) (rg : List (NodeId × List NodeId))
    (stackLimit : Nat) (keys : List NodeId) :
    Except String EFState → Except String CriticalPathResult
  | .error e => .error e
  | .ok efSt =>
    afterBackward tm efSt (maxList (efSt.ef.map (fun p => p.2)))
      (backwardPass tm rg efSt.ef (maxList (efSt.ef.map (fun p => p.2)))
        stackLimit keys)

/-- The computational core of `calculateCriticalPath`, applied to the task
list that `getGanttData` returned (the HTTP fetch is outside the engine).
`stackLimit` is the JS call-stack budget given to each recursive pass. -/
def calculateCriticalPathCore (stackLimit : Nat) (tasks : List GanttTask) :
    Except String CriticalPathResult :=
  if tasks.isEmpty then .ok ⟨[], 0, []⟩
  else
    let tm := buildTaskMap tasks
    let keys := tm.map (fun p => p.1)
    afterForward tm (buildRevGraph tasks) stackLimit keys
      (forwardPass tm (buildDepGraph tasks) stackLimit keys)

/-- `calculateCriticalPath` composed with the (modelled) `getGanttData`
task construction: the dependency lists are always empty there. -/
def calculateCriticalPathFromIssues (stackLimit : Nat) (issues : List RawIssue) :
    Except String CriticalPathResult :=
  calculateCriticalPathCore stackLimit (getGanttDataTasks issues)

/- ## Spec-side comparison definitions (used to state refinements and
corrections; these follow the specification's wording, not the source) -/

/-- Modelled from the spec: the CPM duration as the specification words it —
`dueDate − startDate` when both dates are present, else
`(estimatedMinutes ?? 480)` minutes in milliseconds, with a recorded zero
estimation kept distinct from an absent one. -/
def cpmDurationSpecMs (t : GanttTask) : Int :=
  match t.dueDate, t.startDate with
  | some d, some s => d - s
  | _, _ => (t.estimation.map (fun p => p.minutes)).getD 480 * 60 * 1000

/-- The amended CPM-duration statement: both branches use JS truthiness, so
a zero date falls to the estimation branch and a zero or absent estimation
is replaced by the 480-minute default. -/
def cpmDurationAmendedMs (t : GanttTask) : Int :=
  (if t.dueDate.getD 0 ≠ 0 ∧ t.startDate.getD 0 ≠ 0 then
    t.dueDate.getD 0 - t.startDate.getD 0
  else
    (match t.estimation with
     | some p => if p.minutes ≠ 0 then p.minutes else 480
     | none => 480) * 60 * 1000)

/-- Modelled from the spec: the per-task timeline start as the specification
words it, `startDate ?? createdAt` (presence-based, not truthiness-based). -/
def tlStartSpec (t : GanttTask) : Int := t.startDate.getD t.created

/-- Modelled from the spec: `dueDate ?? resolvedAt ?? updatedAt`. -/
def tlEndSpec (t : GanttTask) : Int := t.dueDate.getD (t.resolved.getD t.updated)

/- ## Result extractors (projections used in theorem statements) -/

/-- The critical path of a successful result ([] on error). -/
def exPath : Except String CriticalPathResult → List NodeId
  | .ok r => r.path
  | .error _ => []

/-- The total duration (days) of a successful result (0 on error). -/
def exDurationDays : Except String CriticalPathResult → ℚ
  | .ok r => r.duration
  | .error _ => 0

/-- The reported slack (days) of the metric entry for task `k`. -/
def exSlackOf (res : Except String CriticalPathResult) (k : NodeId) : Option ℚ :=
  match res with
  | .ok r => (r.tasks.find? (fun m => decide (m.idReadable = k))).map (fun m => m.slack)
  | .error _ => none

/-- The startDate of a successfully converted issue. -/
def exStartDate : Except String GanttTask → Option Int
  | .ok t => t.startDate
  | .error _ => none

/-- The dueDate of a successfully converted issue. -/
def exDueDate : Except String GanttTask → Option Int
  | .ok t => t.dueDate
  | .error _ => none

/-- The resource-overlap conflicts among the detected conflicts. -/
def resourceConflictsOf (tasks : List GanttTask) : List GanttConflict :=
  (detectConflicts tasks).filter (fun c => c.type == "resource_conflict")

/-- The dependency-cycle conflicts among the detected conflicts. -/
def cycleConflictsOf (tasks : List GanttTask) : List GanttConflict :=
  (detectConflicts tasks).filter (fun c => c.type == "dependency_cycle")

/- ## Concrete instances used by the claims -/

/-- A task with the given readable id, estimation in minutes, and
`depends_on` targets; no dates, `created = 0`. -/
def mkEstTask (idr : String) (est : Int) (deps : List String) : GanttTask :=
  { id := idr, idReadable := some idr, summary := idr,
    projectId := "p", projectName := "P", projectShortName := "PR",
    assignee := none, startDate := none, dueDate := none,
    created := 0, updated := 0, resolved := none,
    estimation := some ⟨est, "est"⟩, spentTime := none,
    dependencies := deps.map (fun t => ⟨"lnk", "depends_on", t, t, ⟨"lt", "Depend", "is required for", "depends on"⟩⟩) }

/-- Milliseconds of day `n`. -/
def day (n : Int) : Int := n * 86400000

/-- C1 scenario: A (2 days, no deps), B (3 days, depends on A),
C (1 day, depends on A); durations given as estimations
(2880/4320/1440 minutes = 2/3/1 eight-hour-free days of 1440 min). -/
def c1Tasks : List GanttTask :=
  [mkEstTask "A" 2880 [], mkEstTask "B" 4320 ["A"], mkEstTask "C" 1440 ["A"]]

/-- C2: a two-task depends-on cycle A ⇄ B. -/
def c2Tasks : List GanttTask :=
  [mkEstTask "A" 480 ["B"], mkEstTask "B" 480 ["A"]]

/-- C4 counterexample: a task with a recorded zero-minute estimation and no
dates. -/
def c4Task : GanttTask := { mkEstTask "T" 0 [] with estimation := some ⟨0, "0m"⟩ }

/-- C4 witness input: a task with a nonzero estimation. -/
def c4Task2 : GanttTask := mkEstTask "U" 120 []

/-- C5: a single task whose only dependency targets the out-of-scope id
"X". -/
def c5Tasks : List GanttTask := [mkEstTask "P1" 480 ["X"]]

/-- C6 counterexample: a raw issue with a project but no `idReadable`. -/
def c6Issue : RawIssue :=
  ⟨"internal-1", none, "summary", some ⟨"p", "P", "PR"⟩, none, 1, 2, none, none⟩

/-- The task the converter produces for `c6Issue`. -/
def c6Task : GanttTask :=
  { id := "internal-1", idReadable := none, summary := "summary",
    projectId := "p", projectName := "P", projectShortName := "PR",
    assignee := none, startDate := none, dueDate := none,
    created := 1, updated := 2, resolved := none,
    estimation := none, spentTime := none, dependencies := [] }

/-- A raw issue whose `project` is absent (conversion throws). -/
def c6BadIssue : RawIssue :=
  ⟨"internal-2", some "P-2", "bad", none, none, 1, 2, none, none⟩

/-- A well-formed raw issue. -/
def c6GoodIssue : RawIssue :=
  ⟨"internal-3", some "P-3", "good", some ⟨"p", "P", "PR"⟩, none, 1, 2, none, none⟩

/-- C7: an issue carrying two start-date custom fields with different
values; the claim says the first wins, the code keeps the last. -/
def c7Issue : RawIssue :=
  ⟨"i7", some "P-7", "s", some ⟨"p", "P", "PR"⟩, none, 1, 2, none,
   some [⟨"Start Date", .num 86400000⟩, ⟨"Custom Start Date", .num 172800000⟩]⟩

/-- A dated task builder used by the cycle and overlap scenarios. -/
def mkDatedTask (idr : String) (sd dd : Int) (deps : List String) : GanttTask :=
  { mkEstTask idr 480 deps with startDate := some sd, dueDate := some dd }

/-- C8: depends-on edges forming exactly the cycle A→B→C→A (dated so the
only conflicts are cycle conflicts). -/
def c8Tasks : List GanttTask :=
  [mkDatedTask "A" (day 1) (day 2) ["B"], mkDatedTask "B" (day 1) (day 2) ["C"],
   mkDatedTask "C" (day 1) (day 2) ["A"]]

/-- The shared assignee of the C9 scenarios. -/
def u1 : YUser := ⟨"u1", "User One"⟩

/-- C9: interval [day 1, day 5]. -/
def t15 : GanttTask :=
  { mkEstTask "T1" 480 [] with assignee := some u1, startDate := some (day 1), dueDate := some (day 5) }

/-- C9: interval [day 5, day 10]. -/
def t510 : GanttTask :=
  { mkEstTask "T2" 480 [] with assignee := some u1, startDate := some (day 5), dueDate := some (day 10) }

/-- C9: interval [day 6, day 10]. -/
def t610 : GanttTask :=
  { mkEstTask "T3" 480 [] with assignee := some u1, startDate := some (day 6), dueDate := some (day 10) }

/-- C9 counterexample: a task whose startDate is the epoch instant `0` —
present, and its interval overlaps `t510`, yet JS truthiness drops it from
the assignee grouping. -/
def t0z : GanttTask :=
  { mkEstTask "T0" 480 [] with assignee := some u1, startDate := some 0, dueDate := some (day 5) }

/-- C10 counterexample: startDate present but `0`; `created` nonzero. -/
def tz : GanttTask :=
  { mkEstTask "TZ" 480 [] with
    startDate := some 0
    created := 86400000
    dueDate := some 172800000
    updated := 3 }

/-- C10 witness tasks. -/
def c10a : GanttTask :=
  { mkEstTask "W1" 480 [] with startDate := some (day 2), dueDate := some (day 3), created := day 1, updated := day 1 }

/-- Second C10 witness task. -/
def c10b : GanttTask :=
  { mkEstTask "W2" 480 [] with startDate := none, dueDate := none, created := day 4, updated := day 6 }

/-- C3 witness issues. -/
def c3Issues : List RawIssue :=
  [⟨"a1", some "Q-1", "one", some ⟨"q", "Q", "QQ"⟩, none, day 1, day 1, none, none⟩,
   ⟨"a2", some "Q-2", "two", some ⟨"q", "Q", "QQ"⟩, none, day 2, day 2, none,
    some [⟨"Estimation", .period 960 "2d"⟩]⟩]

/- ## Helper lemmas: association lists -/

/-- The key list of an association list. -/
def assocKeys {κ α : Type} (m : List (κ × α)) : List κ := m.map (fun p => p.1)

theorem assocHas_false_head {κ α : Type} [DecidableEq κ] {p : κ × α}
    {ps : List (κ × α)} {k : κ} (h : assocHas (p :: ps) k = false) :
    p.1 ≠ k ∧ assocHas ps k = false := by
  by_cases hp : p.1 = k
  · simp [assocHas, hp] at h
  · simp [assocHas, hp] at h
    exact ⟨hp, h⟩

theorem assocGet_append_self {κ α : Type} [DecidableEq κ] {m : List (κ × α)}
    {k : κ} {v : α} (h : assocHas m k = false) :
    assocGet (m ++ [(k, v)]) k = some v := by
  induction m with
  | nil => simp [assocGet]
  | cons p ps ih =>
    obtain ⟨hp, hps⟩ := assocHas_false_head h
    simp only [List.cons_append, assocGet, if_neg hp]
    exact ih hps

theorem assocGet_map_set_self {κ α : Type} [DecidableEq κ] {m : List (κ × α)}
    {k : κ} {v : α} (h : assocHas m k = true) :
    assocGet (m.map (fun p => if p.1 = k then (k, v) else p)) k = some v := by
  induction m with
  | nil => simp [assocHas] at h
  | cons p ps ih =>
    by_cases hp : p.1 = k
    · simp [assocGet, hp]
    · simp only [assocHas, if_neg hp] at h
      simp only [List.map_cons, if_neg hp, assocGet, if_neg hp]
      exact ih h

theorem assocGet_set_self {κ α : Type} [DecidableEq κ] (m : List (κ × α))
    (k : κ) (v : α) : assocGet (assocSet m k v) k = some v := by
  unfold assocSet
  by_cases h : assocHas m k
  · rw [if_pos h]; exact assocGet_map_set_self h
  · rw [if_neg h]; exact assocGet_append_self (Bool.not_eq_true _ ▸ eq_false_of_ne_true h)

theorem assocGet_map_set_ne {κ α : Type} [DecidableEq κ] (m : List (κ × α))
    (k k2 : κ) (v : α) (hne : k2 ≠ k) :
    assocGet (m.map (fun p => if p.1 = k then (k, v) else p)) k2 = assocGet m k2 := by
  induction m with
  | nil => simp [assocGet]
  | cons p ps ih =>
    by_cases hp : p.1 = k
    · simp only [List.map_cons, if_pos hp, assocGet, if_neg (Ne.symm hne)]
      rw [if_neg (fun hc => Ne.symm hne (hp.symm.trans hc))]
      exact ih
    · simp only [List.map_cons, if_neg hp, assocGet]
      by_cases hp2 : p.1 = k2
      · rw [if_pos hp2, if_pos hp2]
      · rw [if_neg hp2, if_neg hp2]; exact ih

theorem assocGet_append_ne {κ α : Type} [DecidableEq κ] (m : List (κ × α))
    (k k2 : κ) (v : α) (hne : k2 ≠ k) :
    assocGet (m ++ [(k, v)]) k2 = assocGet m k2 := by
  induction m with
  | nil => simp [assocGet, Ne.symm hne]
  | cons p ps ih =>
    simp only [List.cons_append, assocGet]
    by_cases hp2 : p.1 = k2
    · rw [if_pos hp2, if_pos hp2]
    · rw [if_neg hp2, if_neg hp2]; exact ih

theorem assocGet_set_ne {κ α : Type} [DecidableEq κ] (m : List (κ × α))
    (k k2 : κ) (v : α) (hne : k2 ≠ k) :
    assocGet (assocSet m k v) k2 = assocGet m k2 := by
  unfold assocSet
  by_cases h : assocHas m k
  · rw [if_pos h]; exact assocGet_map_set_ne m k k2 v hne
  · rw [if_neg h]; exact assocGet_append_ne m k k2 v hne

theorem assocHas_map_set_ne {κ α : Type} [DecidableEq κ] (m : List (κ × α))
    (k k2 : κ) (v : α) (hne : k2 ≠ k) :
    assocHas (m.map (fun p => if p.1 = k then (k, v) else p)) k2 = assocHas m k2 := by
  induction m with
  | nil => simp [assocHas]
  | cons p ps ih =>
    by_cases hp : p.1 = k
    · simp only [List.map_cons, if_pos hp, assocHas, if_neg (Ne.symm hne)]
      rw [if_neg (fun hc => Ne.symm hne (hp.symm.trans hc))]
      exact ih
    · simp only [List.map_cons, if_neg hp, assocHas]
      by_cases hp2 : p.1 = k2
      · rw [if_pos hp2, if_pos hp2]
      · rw [if_neg hp2, if_neg hp2]; exact ih

theorem assocHas_append_ne {κ α : Type} [DecidableEq κ] (m : List (κ × α))
    (k k2 : κ) (v : α) (hne : k2 ≠ k) :
    assocHas (m ++ [(k, v)]) k2 = assocHas m k2 := by
  induction m with
  | nil => simp [assocHas, Ne.symm hne]
  | cons p ps ih =>
    simp only [List.cons_append, assocHas]
    by_cases hp2 : p.1 = k2
    · rw [if_pos hp2, if_pos hp2]
    · rw [if_neg hp2, if_neg hp2]; exact ih

theorem assocHas_set_ne {κ α : Type} [DecidableEq κ] (m : List (κ × α))
    (k k2 : κ) (v : α) (hne : k2 ≠ k) :
    assocHas (assocSet m k v) k2 = assocHas m k2 := by
  unfold assocSet
  by_cases h : assocHas m k
  · rw [if_pos h]; exact assocHas_map_set_ne m k k2 v hne
  · rw [if_neg h]; exact assocHas_append_ne m k k2 v hne

theorem assocHas_false_not_mem {κ α : Type} [DecidableEq κ] {m : List (κ × α)}
    {k : κ} (h : assocHas m k = false) : k ∉ assocKeys m := by
  induction m with
  | nil => simp [assocKeys]
  | cons p ps ih =>
    obtain ⟨hp, hps⟩ := assocHas_false_head h
    simp only [assocKeys, List.map_cons, List.mem_cons]
    rintro (rfl | hmem)
    · exact hp rfl
    · exact ih hps hmem

theorem assocKeys_map_set {κ α : Type} [DecidableEq κ] (m : List (κ × α))
    (k : κ) (v : α) :
    assocKeys (m.map (fun p => if p.1 = k then (k, v) else p)) = assocKeys m := by
  induction m with
  | nil => rfl
  | cons p ps ih =>
    by_cases hp : p.1 = k
    · simp only [assocKeys, List.map_cons, if_pos hp] at *
      rw [ih]
      simp [hp]
    · simp only [assocKeys, List.map_cons, if_neg hp] at *
      rw [ih]

theorem assocKeys_set {κ α : Type} [DecidableEq κ] (m : List (κ × α))
    (k : κ) (v : α) :
    assocKeys (assocSet m k v) =
      if assocHas m k then assocKeys m else assocKeys m ++ [k] := by
  unfold assocSet
  by_cases h : assocHas m k
  · rw [if_pos h, if_pos h, assocKeys_map_set]
  · rw [if_neg h, if_neg h]
    simp [assocKeys]

theorem assocKeys_set_nodup {κ α : Type} [DecidableEq κ] (m : List (κ × α))
    (k : κ) (v : α) (h : (assocKeys m).Nodup) :
    (assocKeys (assocSet m k v)).Nodup := by
  rw [assocKeys_set]
  by_cases hh : assocHas m k
  · rwa [if_pos hh]
  · rw [if_neg hh]
    have : k ∉ assocKeys m :=
      assocHas_false_not_mem (Bool.not_eq_true _ ▸ eq_false_of_ne_true hh)
    simp [List.nodup_append, h, this]

theorem mem_assocKeys_set {κ α : Type} [DecidableEq κ] {m : List (κ × α)}
    {k2 : κ} (k : κ) (v : α) (h : k2 ∈ assocKeys m) :
    k2 ∈ assocKeys (assocSet m k v) := by
  rw [assocKeys_set]
  by_cases hh : assocHas m k
  · rwa [if_pos hh]
  · rw [if_neg hh]; exact List.mem_append_left _ h

theorem self_mem_assocKeys_set {κ α : Type} [DecidableEq κ] (m : List (κ × α))
    (k : κ) (v : α) : k ∈ assocKeys (assocSet m k v) := by
  rw [assocKeys_set]
  by_cases hh : assocHas m k
  · rw [if_pos hh]
    induction m with
    | nil => simp [assocHas] at hh
    | cons p ps ih =>
      by_cases hp : p.1 = k
      · simp [assocKeys, hp]
      · simp only [assocHas, if_neg hp] at hh
        simp only [assocKeys, List.map_cons, List.mem_cons]
        exact Or.inr (ih hh)
  · rw [if_neg hh]; simp

theorem exists_assocGet_of_mem_keys {κ α : Type} [DecidableEq κ]
    {m : List (κ × α)} {k : κ} (h : k ∈ assocKeys m) :
    ∃ v, assocGet m k = some v := by
  induction m with
  | nil => simp [assocKeys] at h
  | cons p ps ih =>
    by_cases hp : p.1 = k
    · exact ⟨p.2, by simp [assocGet, hp]⟩
    · simp only [assocKeys, List.map_cons, List.mem_cons] at h
      rcases h with h | h
      · exact absurd h.symm hp
      · obtain ⟨v, hv⟩ := ih h
        exact ⟨v, by simp [assocGet, hp, hv]⟩

theorem assocGet_of_mem_nodup {κ α : Type} [DecidableEq κ]
    {m : List (κ × α)} {p : κ × α} (hn : (assocKeys m).Nodup) (hm : p ∈ m) :
    assocGet m p.1 = some p.2 := by
  induction m with
  | nil => simp at hm
  | cons q qs ih =>
    simp only [assocKeys, List.map_cons, List.nodup_cons] at hn
    rcases List.mem_cons.mp hm with rfl | hm2
    · simp [assocGet]
    · have hq : q.1 ≠ p.1 := by
        intro hc
        exact hn.1 (hc ▸ List.mem_map_of_mem (fun r => r.1) hm2)
      simp only [assocGet, if_neg hq]
      exact ih hn.2 hm2

theorem assocGet_all_values {κ α : Type} [DecidableEq κ] {m : List (κ × α)}
    {P : α → Prop} (h : ∀ p ∈ m, P p.2) {k : κ} {v : α}
    (hv : assocGet m k = some v) : P v := by
  induction m with
  | nil => simp [assocGet] at hv
  | cons p ps ih =>
    by_cases hp : p.1 = k
    · simp only [assocGet, if_pos hp, Option.some.injEq] at hv
      exact hv ▸ h p (List.mem_cons_self p ps)
    · simp only [assocGet, if_neg hp] at hv
      exact ih (fun q hq => h q (List.mem_cons_of_mem p hq)) hv

theorem mem_assocSet {κ α : Type} [DecidableEq κ] {m : List (κ × α)}
    {k : κ} {v : α} {q : κ × α} (h : q ∈ assocSet m k v) :
    q = (k, v) ∨ q ∈ m := by
  unfold assocSet at h
  by_cases hh : assocHas m k
  · rw [if_pos hh] at h
    obtain ⟨p, hp, hpq⟩ := List.mem_map.mp h
    by_cases hc : p.1 = k
    · rw [if_pos hc] at hpq; exact Or.inl hpq.symm
    · rw [if_neg hc] at hpq; exact Or.inr (hpq ▸ hp)
  · rw [if_neg hh] at h
    rcases List.mem_append.mp h with h2 | h2
    · exact Or.inr h2
    · exact Or.inl (List.mem_singleton.mp h2)

/- ## Helper lemmas: stable sort membership -/

theorem mem_insertByLe {α : Type} (le : α → α → Bool) (x a : α) :
    ∀ l : List α, a ∈ insertByLe le x l ↔ a = x ∨ a ∈ l := by
  intro l
  induction l with
  | nil => simp [insertByLe]
  | cons y ys ih =>
    by_cases h : le x y
    · simp only [insertByLe, if_pos h, List.mem_cons]
    · simp only [insertByLe, if_neg h, List.mem_cons, ih]
      tauto

theorem mem_sortByLe {α : Type} (le : α → α → Bool) (a : α) :
    ∀ l : List α, a ∈ sortByLe le l ↔ a ∈ l := by
  intro l
  induction l with
  | nil => simp [sortByLe]
  | cons x xs ih =>
    simp only [sortByLe, mem_insertByLe, List.mem_cons, ih]

/- ## Helper lemmas: graph construction -/

theorem buildTaskMap_keys_nodup (tasks : List GanttTask) :
    (assocKeys (buildTaskMap tasks)).Nodup := by
  have h : ∀ (ts : List GanttTask) (m : List (NodeId × GanttTask)),
      (assocKeys m).Nodup →
      (assocKeys (ts.foldl (fun m t => assocSet m t.idReadable t) m)).Nodup := by
    intro ts
    induction ts with
    | nil => intro m hm; simpa using hm
    | cons t ts ih =>
      intro m hm
      exact ih _ (assocKeys_set_nodup m t.idReadable t hm)
  exact h tasks [] (by simp [assocKeys])

theorem mem_keys_buildTaskMap {tasks : List GanttTask} {t : GanttTask}
    (ht : t ∈ tasks) : t.idReadable ∈ assocKeys (buildTaskMap tasks) := by
  have h : ∀ (ts : List GanttTask) (m : List (NodeId × GanttTask)) (k : NodeId),
      (k ∈ assocKeys m ∨ ∃ u ∈ ts, u.idReadable = k) →
      k ∈ assocKeys (ts.foldl (fun m t => assocSet m t.idReadable t) m) := by
    intro ts
    induction ts with
    | nil =>
      intro m k hk
      rcases hk with hk | ⟨u, hu, _⟩
      · simpa using hk
      · simp at hu
    | cons u us ih =>
      intro m k hk
      apply ih
      rcases hk with hk | ⟨w, hw, hwk⟩
      · exact Or.inl (mem_assocKeys_set u.idReadable u hk)
      · rcases List.mem_cons.mp hw with rfl | hw2
        · exact Or.inl (hwk ▸ self_mem_assocKeys_set m w.idReadable w)
        · exact Or.inr ⟨w, hw2, hwk⟩
  exact h tasks [] t.idReadable (Or.inr ⟨t, ht, rfl⟩)

theorem buildEmptyAdj_values_nil (tasks : List GanttTask) :
    ∀ p ∈ buildEmptyAdj tasks, p.2 = ([] : List NodeId) := by
  have h : ∀ (ts : List GanttTask) (m : List (NodeId × List NodeId)),
      (∀ p ∈ m, p.2 = ([] : List NodeId)) →
      ∀ p ∈ ts.foldl (fun m t => assocSet m t.idReadable ([] : List NodeId)) m,
        p.2 = ([] : List NodeId) := by
    intro ts
    induction ts with
    | nil => intro m hm; simpa using hm
    | cons t ts ih =>
      intro m hm
      apply ih
      intro p hp
      rcases mem_assocSet hp with rfl | hp2
      · rfl
      · exact hm p hp2
  exact h tasks [] (by simp)

theorem addDepEdges_no_deps {tasks : List GanttTask}
    (h : ∀ t ∈ tasks, t.dependencies = []) (g : List (NodeId × List NodeId)) :
    addDepEdges tasks g = g := by
  induction tasks generalizing g with
  | nil => rfl
  | cons t ts ih =>
    have ht : t.dependencies = [] := h t (List.mem_cons_self t ts)
    show addDepEdges (t :: ts) g = g
    unfold addDepEdges
    simp only [List.foldl_cons, ht, List.foldl_nil]
    exact ih (fun u hu => h u (List.mem_cons_of_mem t hu)) g

theorem addRevEdges_no_deps {tasks : List GanttTask}
    (h : ∀ t ∈ tasks, t.dependencies = []) (g : List (NodeId × List NodeId)) :
    addRevEdges tasks g = g := by
  induction tasks generalizing g with
  | nil => rfl
  | cons t ts ih =>
    have ht : t.dependencies = [] := h t (List.mem_cons_self t ts)
    show addRevEdges (t :: ts) g = g
    unfold addRevEdges
    simp only [List.foldl_cons, ht, List.foldl_nil]
    exact ih (fun u hu => h u (List.mem_cons_of_mem t hu)) g

theorem buildDepGraph_no_deps {tasks : List GanttTask}
    (h : ∀ t ∈ tasks, t.dependencies = []) :
    ∀ p ∈ buildDepGraph tasks, p.2 = ([] : List NodeId) := by
  unfold buildDepGraph
  rw [addDepEdges_no_deps h]
  exact buildEmptyAdj_values_nil tasks

theorem buildRevGraph_no_deps {tasks : List GanttTask}
    (h : ∀ t ∈ tasks, t.dependencies = []) :
    ∀ p ∈ buildRevGraph tasks, p.2 = ([] : List NodeId) := by
  unfold buildRevGraph
  rw [addRevEdges_no_deps h]
  exact buildEmptyAdj_values_nil tasks

theorem assocGet_getD_nil {g : List (NodeId × List NodeId)}
    (h : ∀ p ∈ g, p.2 = ([] : List NodeId)) (k : NodeId) :
    ((assocGet g k).getD []) = ([] : List NodeId) := by
  cases hv : assocGet g k with
  | none => rfl
  | some v =>
    have := assocGet_all_values (P := fun l => l = ([] : List NodeId)) h hv
    simp [this]

/- ## Helper lemmas: cycle detection on edge-free graphs -/

theorem cycleDfs_no_edges {g : List (NodeId × List NodeId)}
    (hg : ∀ p ∈ g, p.2 = ([] : List NodeId)) (f : Nat) (s : DfsState)
    (k : NodeId) (hstk : s.stk = []) (hpath : s.path = []) :
    ((cycleDfs g (f + 1) s k).1.cycles = s.cycles ∧
     (cycleDfs g (f + 1) s k).1.stk = [] ∧
     (cycleDfs g (f + 1) s k).1.path = []) := by
  rw [cycleDfs]
  rw [hstk, hpath]
  rw [show elemB ([] : List NodeId) k = false from rfl]
  simp only [Bool.false_eq_true, if_false]
  by_cases hv : elemB s.visited k
  · rw [if_pos hv]
    exact ⟨rfl, hstk, hpath⟩
  · rw [if_neg hv]
    rw [assocGet_getD_nil hg k]
    simp only [List.foldl_nil, List.nil_append]
    simp [List.erase_cons]

theorem findDependencyCycles_no_edges {g : List (NodeId × List NodeId)}
    (hg : ∀ p ∈ g, p.2 = ([] : List NodeId)) :
    findDependencyCycles g = [] := by
  unfold findDependencyCycles
  have hfold : ∀ (K : List NodeId) (s : DfsState), s.stk = [] → s.path = [] →
      ((K.foldl (fun s k => if elemB s.visited k then s
          else (cycleDfs g (cycleFuel g) s k).1) s).cycles = s.cycles) := by
    intro K
    induction K with
    | nil => intro s _ _; rfl
    | cons k ks ih =>
      intro s hstk hpath
      simp only [List.foldl_cons]
      by_cases hv : elemB s.visited k
      · rw [if_pos hv]
        exact ih s hstk hpath
      · rw [if_neg hv]
        have hfuel : ∃ f, cycleFuel g = f + 1 := ⟨cycleFuel g - 1, by
          unfold cycleFuel; omega⟩
        obtain ⟨f, hf⟩ := hfuel
        have h3 := cycleDfs_no_edges hg f s k hstk hpath
        rw [← hf] at h3
        rw [ih _ h3.2.1 h3.2.2, h3.1]
  exact hfold _ ⟨[], [], [], []⟩ rfl rfl

/- ## Helper lemmas: conflict kinds -/

theorem cycleConf_type {tasks : List GanttTask} {c : GanttConflict}
    (h : c ∈ (findDependencyCycles (tasks.foldl
      (fun m t => assocSet m t.idReadable
        (t.dependencies.map (fun d => (some d.targetTaskIdReadable : NodeId)))) [])).map
      (fun cy => (⟨"dependency_cycle", cy, "Circular dependency detected: " ++ joinArrow cy,
        "high"⟩ : GanttConflict))) :
    c.type = "dependency_cycle" := by
  obtain ⟨cy, _, rfl⟩ := List.mem_map.mp h
  rfl

theorem pairConflicts_type {ts : List GanttTask} {c : GanttConflict}
    (h : c ∈ pairConflicts ts) : c.type = "resource_conflict" := by
  induction ts with
  | nil => simp [pairConflicts] at h
  | cons t rest ih =>
    rw [pairConflicts] at h
    rcases List.mem_append.mp h with h2 | h2
    · obtain ⟨u, _, hu⟩ := List.mem_filterMap.mp h2
      by_cases hov : datesOverlap (t.startDate.getD 0) (t.dueDate.getD 0)
          (u.startDate.getD 0) (u.dueDate.getD 0)
      · rw [if_pos hov] at hu
        cases hu
        rfl
      · rw [if_neg hov] at hu
        cases hu
    · exact ih h2

theorem overlapConfs_type {tasks : List GanttTask} {c : GanttConflict}
    (h : c ∈ (groupByAssignee tasks).foldl (fun acc p => acc ++ pairConflicts p.2) []) :
    c.type = "resource_conflict" := by
  have hgen : ∀ (G : List (String × List GanttTask)) (acc : List GanttConflict),
      (∀ c2 ∈ acc, c2.type = "resource_conflict") →
      ∀ c2 ∈ G.foldl (fun acc p => acc ++ pairConflicts p.2) acc,
        c2.type = "resource_conflict" := by
    intro G
    induction G with
    | nil => intro acc hacc c2 hc2; exact hacc c2 hc2
    | cons p ps ih =>
      intro acc hacc c2 hc2
      refine ih _ ?_ c2 hc2
      intro c3 hc3
      rcases List.mem_append.mp hc3 with h3 | h3
      · exact hacc c3 h3
      · exact pairConflicts_type h3
  exact hgen _ [] (by simp) c h

theorem depGraph_values_nil_of_no_deps {tasks : List GanttTask}
    (h : ∀ t ∈ tasks, t.dependencies = []) :
    ∀ p ∈ tasks.foldl (fun m t => assocSet m t.idReadable
        (t.dependencies.map (fun d => (some d.targetTaskIdReadable : NodeId)))) [],
      p.2 = ([] : List NodeId) := by
  have hgen : ∀ (ts : List GanttTask) (m : List (NodeId × List NodeId)),
      (∀ t ∈ ts, t.dependencies = []) →
      (∀ p ∈ m, p.2 = ([] : List NodeId)) →
      ∀ p ∈ ts.foldl (fun m t => assocSet m t.idReadable
          (t.dependencies.map (fun d => (some d.targetTaskIdReadable : NodeId)))) m,
        p.2 = ([] : List NodeId) := by
    intro ts
    induction ts with
    | nil => intro m _ hm; simpa using hm
    | cons t ts ih =>
      intro m hts hm
      simp only [List.foldl_cons]
      apply ih _ (fun u hu => hts u (List.mem_cons_of_mem t hu))
      intro p hp
      rcases mem_assocSet hp with rfl | hp2
      · simp [hts t (List.mem_cons_self t ts)]
      · exact hm p hp2
  exact hgen tasks [] h (by simp)

theorem cycleConflictsOf_no_deps {tasks : List GanttTask}
    (h : ∀ t ∈ tasks, t.dependencies = []) :
    cycleConflictsOf tasks = [] := by
  unfold cycleConflictsOf detectConflicts
  simp only [List.filter_append]
  have h1 : findDependencyCycles (tasks.foldl (fun m t => assocSet m t.idReadable
      (t.dependencies.map (fun d => (some d.targetTaskIdReadable : NodeId)))) []) = [] :=
    findDependencyCycles_no_edges (depGraph_values_nil_of_no_deps h)
  rw [h1]
  simp only [List.map_nil, List.filter_nil, List.nil_append]
  rw [List.append_eq_nil]
  constructor
  · by_cases hm : (tasks.filter
        (fun t => !jsTruthy t.startDate || !jsTruthy t.dueDate)).length > 0
    · rw [if_pos hm]
      rfl
    · rw [if_neg hm]
      rfl
  · rw [List.filter_eq_nil_iff]
    intro c hc
    have := overlapConfs_type hc
    simp [this]

/- ## Helper lemmas: CPM passes on an edge-free dependency graph -/

theorem calcEarliest_no_deps_step {tm : List (NodeId × GanttTask)}
    {g : List (NodeId × List NodeId)} {st : EFState} {k : NodeId} {task : GanttTask}
    (hg : ∀ p ∈ g, p.2 = ([] : List NodeId)) (f : Nat)
    (htm : assocGet tm k = some task) (hnot : assocHas st.es k = false) :
    calcEarliest tm g (f + 1) st k =
      .ok ⟨assocSet st.es k (jsOr task.startDate task.created),
           assocSet st.ef k (jsOr task.startDate task.created + cpmDurationMs task)⟩ := by
  rw [calcEarliest]
  simp only [hnot, Bool.false_eq_true, if_false, htm, assocGet_getD_nil hg k,
    List.foldl_nil]

theorem calcLatest_no_succs_step {tm : List (NodeId × GanttTask)}
    {rg : List (NodeId × List NodeId)} {st : LFState} {k : NodeId}
    {task : GanttTask} (hrg : ∀ p ∈ rg, p.2 = ([] : List NodeId))
    (efin : List (NodeId × Int)) (projectEnd : Int) (f : Nat)
    (htm : assocGet tm k = some task) (hnot : assocHas st.lf k = false) :
    calcLatest tm rg efin projectEnd (f + 1) st k =
      .ok ⟨assocSet st.ls k ((assocGet efin k).getD 0 - cpmDurationMs task),
           assocSet st.lf k ((assocGet efin k).getD 0)⟩ := by
  rw [calcLatest]
  simp only [hnot, Bool.false_eq_true, if_false, htm, assocGet_getD_nil hrg k,
    List.isEmpty_nil, if_true]

theorem forwardFold_no_deps (tm : List (NodeId × GanttTask))
    (g : List (NodeId × List NodeId)) (hg : ∀ p ∈ g, p.2 = ([] : List NodeId))
    (l : Nat) :
    ∀ (K : List NodeId) (st : EFState),
      K.Nodup →
      (∀ k ∈ K, assocHas st.es k = false) →
      (∀ k ∈ K, ∃ t, assocGet tm k = some t) →
      ∃ st2,
        K.foldl (stepEarliest tm g (l + 1)) (.ok st) = .ok st2 ∧
        (∀ k ∈ K, ∀ t, assocGet tm k = some t →
          assocGet st2.es k = some (jsOr t.startDate t.created) ∧
          assocGet st2.ef k = some (jsOr t.startDate t.created + cpmDurationMs t)) ∧
        (∀ k, k ∉ K → assocGet st2.es k = assocGet st.es k ∧
          assocGet st2.ef k = assocGet st.ef k) := by
  intro K
  induction K with
  | nil =>
    intro st _ _ _
    exact ⟨st, rfl, by simp, fun k _ => ⟨rfl, rfl⟩⟩
  | cons k ks ih =>
    intro st hnd hhas htm
    obtain ⟨task, htask⟩ := htm k (List.mem_cons_self k ks)
    have hstep := calcEarliest_no_deps_step hg l htask (hhas k (List.mem_cons_self k ks))
    have hknotks : k ∉ ks := (List.nodup_cons.mp hnd).1
    have hndks : ks.Nodup := (List.nodup_cons.mp hnd).2
    have hfirst : stepEarliest tm g (l + 1) (.ok st) k =
        .ok ⟨assocSet st.es k (jsOr task.startDate task.created),
             assocSet st.ef k (jsOr task.startDate task.created + cpmDurationMs task)⟩ := by
      rw [stepEarliest]
      exact hstep
    have hhas1 : ∀ k2 ∈ ks, assocHas
        (assocSet st.es k (jsOr task.startDate task.created)) k2 = false := by
      intro k2 hk2
      rw [assocHas_set_ne st.es k k2 _ (fun hc => hknotks (hc ▸ hk2))]
      exact hhas k2 (List.mem_cons_of_mem k hk2)
    obtain ⟨st2, hfold, hvals, hpres⟩ :=
      ih ⟨assocSet st.es k (jsOr task.startDate task.created),
          assocSet st.ef k (jsOr task.startDate task.created + cpmDurationMs task)⟩
        hndks hhas1 (fun k2 hk2 => htm k2 (List.mem_cons_of_mem k hk2))
    refine ⟨st2, ?_, ?_, ?_⟩
    · rw [List.foldl_cons, hfirst, hfold]
    · intro k2 hk2 t ht
      rcases List.mem_cons.mp hk2 with rfl | hk2s
      · have hte : t = task := by
          rw [htask] at ht
          exact (Option.some.injEq _ _ ▸ ht).symm
        subst hte
        have hp := hpres k2 hknotks
        rw [hp.1, hp.2, assocGet_set_self, assocGet_set_self]
        exact ⟨rfl, rfl⟩
      · exact hvals k2 hk2s t ht
    · intro k2 hk2
      have hne : k2 ≠ k := fun hc => hk2 (hc ▸ List.mem_cons_self k ks)
      have hp := hpres k2 (fun hc => hk2 (List.mem_cons_of_mem k hc))
      rw [hp.1, hp.2, assocGet_set_ne st.es k k2 _ hne, assocGet_set_ne st.ef k k2 _ hne]
      exact ⟨rfl, rfl⟩

theorem backwardFold_no_succs (tm : List (NodeId × GanttTask))
    (rg : List (NodeId × List NodeId)) (efin : List (NodeId × Int))
    (projectEnd : Int) (hrg : ∀ p ∈ rg, p.2 = ([] : List NodeId)) (l : Nat) :
    ∀ (K : List NodeId) (st : LFState),
      K.Nodup →
      (∀ k ∈ K, assocHas st.lf k = false) →
      (∀ k ∈ K, ∃ t, assocGet tm k = some t) →
      ∃ st2,
        K.foldl (stepLatest tm rg efin projectEnd (l + 1)) (.ok st) = .ok st2 ∧
        (∀ k ∈ K, ∀ t, assocGet tm k = some t →
          assocGet st2.ls k = some ((assocGet efin k).getD 0 - cpmDurationMs t) ∧
          assocGet st2.lf k = some ((assocGet efin k).getD 0)) ∧
        (∀ k, k ∉ K → assocGet st2.ls k = assocGet st.ls k ∧
          assocGet st2.lf k = assocGet st.lf k) := by
  intro K
  induction K with
  | nil =>
    intro st _ _ _
    exact ⟨st, rfl, by simp, fun k _ => ⟨rfl, rfl⟩⟩
  | cons k ks ih =>
    intro st hnd hhas htm
    obtain ⟨task, htask⟩ := htm k (List.mem_cons_self k ks)
    have hstep := calcLatest_no_succs_step hrg efin projectEnd l htask
      (hhas k (List.mem_cons_self k ks))
    have hknotks : k ∉ ks := (List.nodup_cons.mp hnd).1
    have hndks : ks.Nodup := (List.nodup_cons.mp hnd).2
    have hfirst : stepLatest tm rg efin projectEnd (l + 1) (.ok st) k =
        .ok ⟨assocSet st.ls k ((assocGet efin k).getD 0 - cpmDurationMs task),
             assocSet st.lf k ((assocGet efin k).getD 0)⟩ := by
      rw [stepLatest]
      exact hstep
    have hhas1 : ∀ k2 ∈ ks, assocHas
        (assocSet st.lf k ((assocGet efin k).getD 0)) k2 = false := by
      intro k2 hk2
      rw [assocHas_set_ne st.lf k k2 _ (fun hc => hknotks (hc ▸ hk2))]
      exact hhas k2 (List.mem_cons_of_mem k hk2)
    obtain ⟨st2, hfold, hvals, hpres⟩ :=
      ih ⟨assocSet st.ls k ((assocGet efin k).getD 0 - cpmDurationMs task),
          assocSet st.lf k ((assocGet efin k).getD 0)⟩
        hndks hhas1 (fun k2 hk2 => htm k2 (List.mem_cons_of_mem k hk2))
    refine ⟨st2, ?_, ?_, ?_⟩
    · rw [List.foldl_cons, hfirst, hfold]
    · intro k2 hk2 t ht
      rcases List.mem_cons.mp hk2 with rfl | hk2s
      · have hte : t = task := by
          rw [htask] at ht
          exact (Option.some.injEq _ _ ▸ ht).symm
        subst hte
        have hp := hpres k2 hknotks
        rw [hp.1, hp.2, assocGet_set_self, assocGet_set_self]
        exact ⟨rfl, rfl⟩
      · exact hvals k2 hk2s t ht
    · intro k2 hk2
      have hne : k2 ≠ k := fun hc => hk2 (hc ▸ List.mem_cons_self k ks)
      have hp := hpres k2 (fun hc => hk2 (List.mem_cons_of_mem k hc))
      rw [hp.1, hp.2, assocGet_set_ne st.ls k k2 _ hne, assocGet_set_ne st.lf k k2 _ hne]
      exact ⟨rfl, rfl⟩

theorem criticalFold_all (efSt : EFState) (lfSt : LFState)
    (tm : List (NodeId × GanttTask))
    (h : ∀ p ∈ tm, |slackDaysOf efSt lfSt p.1| < mkRat 1 100) :
    ∀ acc, tm.foldl (fun acc p =>
        if |slackDaysOf efSt lfSt p.1| < mkRat 1 100 then acc ++ [p.1] else acc) acc =
      acc ++ assocKeys tm := by
  induction tm with
  | nil => intro acc; simp [assocKeys]
  | cons p ps ih =>
    intro acc
    simp only [List.foldl_cons, if_pos (h p (List.mem_cons_self p ps))]
    rw [ih (fun q hq => h q (List.mem_cons_of_mem p hq)) (acc ++ [p.1])]
    simp [assocKeys]

theorem slack_zero_entry {efSt : EFState} {lfSt : LFState}
    {p : NodeId × GanttTask}
    (hes : assocGet efSt.es p.1 = some (jsOr p.2.startDate p.2.created))
    (hef : assocGet efSt.ef p.1 =
      some (jsOr p.2.startDate p.2.created + cpmDurationMs p.2))
    (hls : assocGet lfSt.ls p.1 =
      some ((assocGet efSt.ef p.1).getD 0 - cpmDurationMs p.2)) :
    slackDaysOf efSt lfSt p.1 = 0 := by
  unfold slackDaysOf
  rw [hls, hef, hes]
  have hz : (jsOr p.2.startDate p.2.created + cpmDurationMs p.2 - cpmDurationMs p.2) -
      jsOr p.2.startDate p.2.created = 0 := by ring
  simp only [Option.getD_some]
  rw [hz]
  decide

theorem core_no_deps (tasks : List GanttTask) (limit : Nat) (hl : 1 ≤ limit)
    (hdeps : ∀ t ∈ tasks, t.dependencies = []) :
    ∃ r, calculateCriticalPathCore limit tasks = .ok r ∧
      (∀ t ∈ tasks, t.idReadable ∈ r.path) ∧
      (∀ m ∈ r.tasks, m.slack = 0) := by
  obtain ⟨l, rfl⟩ : ∃ l, limit = l + 1 := ⟨limit - 1, by omega⟩
  by_cases he : tasks.isEmpty
  · refine ⟨⟨[], 0, []⟩, ?_, ?_, ?_⟩
    · unfold calculateCriticalPathCore
      rw [if_pos he]
    · intro t ht
      rw [List.isEmpty_iff] at he
      subst he
      simp at ht
    · intro m hm
      simp at hm
  · have hg := buildDepGraph_no_deps hdeps
    have hrg := buildRevGraph_no_deps hdeps
    have hnd := buildTaskMap_keys_nodup tasks
    have hkeysome : ∀ k ∈ assocKeys (buildTaskMap tasks),
        ∃ t, assocGet (buildTaskMap tasks) k = some t :=
      fun k hk => exists_assocGet_of_mem_keys hk
    obtain ⟨efSt, hfw, hes, _⟩ :=
      forwardFold_no_deps (buildTaskMap tasks) (buildDepGraph tasks) hg l
        (assocKeys (buildTaskMap tasks)) ⟨[], []⟩ hnd (fun k _ => rfl) hkeysome
    obtain ⟨lfSt, hbw, hls, _⟩ :=
      backwardFold_no_succs (buildTaskMap tasks) (buildRevGraph tasks) efSt.ef
        (maxList (efSt.ef.map (fun p => p.2))) hrg l
        (assocKeys (buildTaskMap tasks)) ⟨[], []⟩ hnd (fun k _ => rfl) hkeysome
    have hslack : ∀ p ∈ buildTaskMap tasks, slackDaysOf efSt lfSt p.1 = 0 := by
      intro p hp
      have hget : assocGet (buildTaskMap tasks) p.1 = some p.2 :=
        assocGet_of_mem_nodup hnd hp
      have hk : p.1 ∈ assocKeys (buildTaskMap tasks) :=
        List.mem_map_of_mem (fun q => q.1) hp
      have h1 := hes p.1 hk p.2 hget
      have h2 := hls p.1 hk p.2 hget
      exact slack_zero_entry h1.1 h1.2 (h2.1.trans (by rw [h1.2]))
    have hcrit : ∀ p ∈ buildTaskMap tasks,
        |slackDaysOf efSt lfSt p.1| < mkRat 1 100 := by
      intro p hp
      rw [hslack p hp]
      decide
    refine ⟨extractResult (buildTaskMap tasks) efSt lfSt
      (maxList (efSt.ef.map (fun p => p.2))), ?_, ?_, ?_⟩
    · simp only [calculateCriticalPathCore]
      rw [if_neg (by simp [he])]
      rw [show List.map (fun p => p.1) (buildTaskMap tasks) =
        assocKeys (buildTaskMap tasks) from rfl]
      rw [forwardPass, hfw, afterForward, backwardPass, hbw, afterBackward]
    · intro t ht
      unfold extractResult
      rw [criticalFold_all efSt lfSt (buildTaskMap tasks) hcrit []]
      simp only [List.nil_append]
      rw [mem_sortByLe]
      exact mem_keys_buildTaskMap ht
    · intro m hm
      unfold extractResult at hm
      simp only at hm
      rw [mem_sortByLe] at hm
      obtain ⟨p, hp, rfl⟩ := List.mem_map.mp hm
      exact hslack p hp

/- ## Helper lemmas: the simplified converter -/

theorem convert_project_some {issue : RawIssue} {proj : RawProject}
    (h : issue.project = some proj) :
    convertIssueToGanttTaskSimplified issue =
      .ok { id := issue.id
            idReadable := issue.idReadable
            summary := issue.summary
            projectId := proj.id
            projectName := proj.name
            projectShortName := proj.shortName
            assignee := issue.assignee
            startDate := ((issue.customFields.getD []).foldl processField
              ⟨none, none, none, none⟩).startDate
            dueDate := ((issue.customFields.getD []).foldl processField
              ⟨none, none, none, none⟩).dueDate
            created := issue.created
            updated := issue.updated
            resolved := issue.resolved
            estimation := ((issue.customFields.getD []).foldl processField
              ⟨none, none, none, none⟩).estimation
            spentTime := ((issue.customFields.getD []).foldl processField
              ⟨none, none, none, none⟩).spentTime
            dependencies := [] } := by
  unfold convertIssueToGanttTaskSimplified
  rw [h]

theorem convert_project_none {issue : RawIssue} (h : issue.project = none) :
    convertIssueToGanttTaskSimplified issue =
      .error "TypeError: Cannot read properties of undefined" := by
  unfold convertIssueToGanttTaskSimplified
  rw [h]

theorem getGanttDataTasks_deps_nil (issues : List RawIssue) :
    ∀ t ∈ getGanttDataTasks issues, t.dependencies = [] := by
  intro t ht
  unfold getGanttDataTasks at ht
  obtain ⟨i, _, hconv⟩ := List.mem_filterMap.mp ht
  cases hp : i.project with
  | none =>
    rw [convert_project_none hp] at hconv
    simp [Except.toOption] at hconv
  | some proj =>
    rw [convert_project_some hp] at hconv
    simp only [Except.toOption, Option.some.injEq] at hconv
    rw [← hconv]

/- ## Helper lemmas: error propagation and the cyclic / dangling scenarios -/

theorem foldl_stepEarliest_error (tm : List (NodeId × GanttTask))
    (g : List (NodeId × List NodeId)) (l : Nat) (e : String) :
    ∀ K : List NodeId, K.foldl (stepEarliest tm g l) (.error e) = .error e := by
  intro K
  induction K with
  | nil => rfl
  | cons k ks ih =>
    rw [List.foldl_cons]
    rw [show stepEarliest tm g l (.error e) k = .error e from rfl]
    exact ih

theorem c2_calcEarliest_error : ∀ f : Nat,
    calcEarliest (buildTaskMap c2Tasks) (buildDepGraph c2Tasks) f ⟨[], []⟩ (some "A")
      = .error "RangeError: Maximum call stack size exceeded" ∧
    calcEarliest (buildTaskMap c2Tasks) (buildDepGraph c2Tasks) f ⟨[], []⟩ (some "B")
      = .error "RangeError: Maximum call stack size exceeded" := by
  intro f
  induction f with
  | zero => exact ⟨rfl, rfl⟩
  | succ f ih =>
    constructor
    · rw [calcEarliest.eq_def]
      simp only []
      rw [show (assocGet (buildDepGraph c2Tasks) (some "A")).getD [] = [some "B"]
        from rfl]
      simp only [List.foldl_cons, List.foldl_nil]
      rw [ih.2]
      rfl
    · rw [calcEarliest.eq_def]
      simp only []
      rw [show (assocGet (buildDepGraph c2Tasks) (some "B")).getD [] = [some "A"]
        from rfl]
      simp only [List.foldl_cons, List.foldl_nil]
      rw [ih.1]
      rfl

theorem c2_forwardPass_error (limit : Nat) :
    forwardPass (buildTaskMap c2Tasks) (buildDepGraph c2Tasks) limit
      ((buildTaskMap c2Tasks).map (fun p => p.1))
      = .error "RangeError: Maximum call stack size exceeded" := by
  rw [show ((buildTaskMap c2Tasks).map (fun p => p.1)) = [some "A", some "B"] from rfl]
  rw [forwardPass]
  rw [List.foldl_cons]
  rw [show stepEarliest (buildTaskMap c2Tasks) (buildDepGraph c2Tasks) limit
      (.ok ⟨[], []⟩) (some "A") =
    calcEarliest (buildTaskMap c2Tasks) (buildDepGraph c2Tasks) limit ⟨[], []⟩ (some "A")
    from rfl]
  rw [(c2_calcEarliest_error limit).1]
  exact foldl_stepEarliest_error _ _ _ _ [some "B"]

theorem c5_calcEarliest_error (l : Nat) :
    calcEarliest (buildTaskMap c5Tasks) (buildDepGraph c5Tasks) (l + 2) ⟨[], []⟩
      (some "P1") = .error "TypeError: Cannot read properties of undefined" := by
  rw [calcEarliest.eq_def]
  simp only []
  rw [show (assocGet (buildDepGraph c5Tasks) (some "P1")).getD [] = [some "X"]
    from rfl]
  simp only [List.foldl_cons, List.foldl_nil]
  rw [show calcEarliest (buildTaskMap c5Tasks) (buildDepGraph c5Tasks) (l + 1)
      ⟨[], []⟩ (some "X") = .error "TypeError: Cannot read properties of undefined" by
    rw [calcEarliest.eq_def]
    simp only []
    rfl]
  rfl

theorem c5_forwardPass_error (l : Nat) :
    forwardPass (buildTaskMap c5Tasks) (buildDepGraph c5Tasks) (l + 2)
      ((buildTaskMap c5Tasks).map (fun p => p.1))
      = .error "TypeError: Cannot read properties of undefined" := by
  rw [show ((buildTaskMap c5Tasks).map (fun p => p.1)) = [some "P1"] from rfl]
  rw [forwardPass]
  rw [List.foldl_cons]
  rw [show stepEarliest (buildTaskMap c5Tasks) (buildDepGraph c5Tasks) (l + 2)
      (.ok ⟨[], []⟩) (some "P1") =
    calcEarliest (buildTaskMap c5Tasks) (buildDepGraph c5Tasks) (l + 2) ⟨[], []⟩
      (some "P1") from rfl]
  rw [c5_calcEarliest_error l]
  rfl

/- ## Helper lemmas: timeline folds -/

theorem foldl_min_le_init {α : Type} (f : α → Int) :
    ∀ (l : List α) (init : Int),
      l.foldl (fun acc x => min acc (f x)) init ≤ init := by
  intro l
  induction l with
  | nil => intro init; simp
  | cons x xs ih =>
    intro init
    simp only [List.foldl_cons]
    exact le_trans (ih (min init (f x))) (min_le_left _ _)

theorem foldl_min_le_mem {α : Type} (f : α → Int) :
    ∀ (l : List α) (init : Int) (t : α), t ∈ l →
      l.foldl (fun acc x => min acc (f x)) init ≤ f t := by
  intro l
  induction l with
  | nil => intro init t ht; simp at ht
  | cons x xs ih =>
    intro init t ht
    simp only [List.foldl_cons]
    rcases List.mem_cons.mp ht with rfl | ht2
    · exact le_trans (foldl_min_le_init f xs (min init (f t))) (min_le_right _ _)
    · exact ih (min init (f x)) t ht2

theorem foldl_min_cases {α : Type} (f : α → Int) :
    ∀ (l : List α) (init : Int),
      l.foldl (fun acc x => min acc (f x)) init = init ∨
      ∃ t ∈ l, l.foldl (fun acc x => min acc (f x)) init = f t := by
  intro l
  induction l with
  | nil => intro init; exact Or.inl rfl
  | cons x xs ih =>
    intro init
    simp only [List.foldl_cons]
    rcases ih (min init (f x)) with h | ⟨t, ht, h⟩
    · rcases min_choice init (f x) with hm | hm
      · exact Or.inl (h.trans hm)
      · exact Or.inr ⟨x, List.mem_cons_self x xs, h.trans hm⟩
    · exact Or.inr ⟨t, List.mem_cons_of_mem x ht, h⟩

theorem foldl_max_ge_init {α : Type} (f : α → Int) :
    ∀ (l : List α) (init : Int),
      init ≤ l.foldl (fun acc x => max acc (f x)) init := by
  intro l
  induction l with
  | nil => intro init; simp
  | cons x xs ih =>
    intro init
    simp only [List.foldl_cons]
    exact le_trans (le_max_left _ _) (ih (max init (f x)))

theorem foldl_max_ge_mem {α : Type} (f : α → Int) :
    ∀ (l : List α) (init : Int) (t : α), t ∈ l →
      f t ≤ l.foldl (fun acc x => max acc (f x)) init := by
  intro l
  induction l with
  | nil => intro init t ht; simp at ht
  | cons x xs ih =>
    intro init t ht
    simp only [List.foldl_cons]
    rcases List.mem_cons.mp ht with rfl | ht2
    · exact le_trans (le_max_right _ _) (foldl_max_ge_init f xs (max init (f t)))
    · exact ih (max init (f x)) t ht2

theorem foldl_max_cases {α : Type} (f : α → Int) :
    ∀ (l : List α) (init : Int),
      l.foldl (fun acc x => max acc (f x)) init = init ∨
      ∃ t ∈ l, l.foldl (fun acc x => max acc (f x)) init = f t := by
  intro l
  induction l with
  | nil => intro init; exact Or.inl rfl
  | cons x xs ih =>
    intro init
    simp only [List.foldl_cons]
    rcases ih (max init (f x)) with h | ⟨t, ht, h⟩
    · rcases max_choice init (f x) with hm | hm
      · exact Or.inl (h.trans hm)
      · exact Or.inr ⟨x, List.mem_cons_self x xs, h.trans hm⟩
    · exact Or.inr ⟨t, List.mem_cons_of_mem x ht, h⟩

/- ## Helper lemmas: resource-overlap on a two-task set -/

theorem pairConflicts_two (t1 t2 : GanttTask) (u : YUser)
    (h1 : t1.assignee = some u) :
    pairConflicts [t1, t2] =
      if datesOverlap (t1.startDate.getD 0) (t1.dueDate.getD 0)
          (t2.startDate.getD 0) (t2.dueDate.getD 0) then
        [⟨"resource_conflict", [t1.idReadable, t2.idReadable],
          "Tasks overlap for assignee " ++ u.fullName, "medium"⟩]
      else [] := by
  by_cases hov : datesOverlap (t1.startDate.getD 0) (t1.dueDate.getD 0)
      (t2.startDate.getD 0) (t2.dueDate.getD 0)
  · rw [if_pos hov]
    unfold pairConflicts
    simp only [List.filterMap_cons, List.filterMap_nil, if_pos hov, h1]
    rfl
  · rw [if_neg hov]
    unfold pairConflicts
    simp only [List.filterMap_cons, List.filterMap_nil, if_neg hov]
    rfl

theorem groupByAssignee_two (t1 t2 : GanttTask) (u : YUser)
    (h1 : t1.assignee = some u) (h2 : t2.assignee = some u)
    (hs1 : jsTruthy t1.startDate = true) (hd1 : jsTruthy t1.dueDate = true)
    (hs2 : jsTruthy t2.startDate = true) (hd2 : jsTruthy t2.dueDate = true) :
    groupByAssignee [t1, t2] = [(u.id, [t1, t2])] := by
  unfold groupByAssignee
  simp only [List.foldl_cons, List.foldl_nil, h1, h2, hs1, hd1, hs2, hd2,
    Bool.and_self, if_true]
  simp [assocGroupAdd, assocHas, assocAppendAt]

theorem resourceConflicts_two (t1 t2 : GanttTask) (u : YUser)
    (h1 : t1.assignee = some u) (h2 : t2.assignee = some u)
    (hs1 : jsTruthy t1.startDate = true) (hd1 : jsTruthy t1.dueDate = true)
    (hs2 : jsTruthy t2.startDate = true) (hd2 : jsTruthy t2.dueDate = true) :
    resourceConflictsOf [t1, t2] =
      if datesOverlap (t1.startDate.getD 0) (t1.dueDate.getD 0)
          (t2.startDate.getD 0) (t2.dueDate.getD 0) then
        [⟨"resource_conflict", [t1.idReadable, t2.idReadable],
          "Tasks overlap for assignee " ++ u.fullName, "medium"⟩]
      else [] := by
  unfold resourceConflictsOf detectConflicts
  simp only [List.filter_append]
  have hmiss : (if ((([t1, t2].filter
      (fun t => !jsTruthy t.startDate || !jsTruthy t.dueDate)).length > 0) : Prop) then
        [(⟨"missing_dates", ([t1, t2].filter
            (fun t => !jsTruthy t.startDate || !jsTruthy t.dueDate)).map (fun t => t.idReadable),
          toString ([t1, t2].filter
            (fun t => !jsTruthy t.startDate || !jsTruthy t.dueDate)).length ++
            " tasks are missing start or due dates", "medium"⟩ : GanttConflict)]
      else ([] : List GanttConflict)).filter
        (fun c => c.type == "resource_conflict") = [] := by
    have : [t1, t2].filter (fun t => !jsTruthy t.startDate || !jsTruthy t.dueDate) = [] := by
      simp [List.filter, hs1, hd1, hs2, hd2]
    rw [this]
    rfl
  rw [hmiss]
  have hcyc : ((findDependencyCycles ([t1, t2].foldl
      (fun m t => assocSet m t.idReadable
        (t.dependencies.map (fun d => (some d.targetTaskIdReadable : NodeId)))) [])).map
      (fun cy => (⟨"dependency_cycle", cy, "Circular dependency detected: " ++ joinArrow cy,
        "high"⟩ : GanttConflict))).filter
      (fun c => c.type == "resource_conflict") = [] := by
    rw [List.filter_eq_nil_iff]
    intro c hc
    have := cycleConf_type hc
    simp [this]
  rw [hcyc]
  rw [groupByAssignee_two t1 t2 u h1 h2 hs1 hd1 hs2 hd2]
  simp only [List.foldl_cons, List.foldl_nil, List.nil_append]
  rw [pairConflicts_two t1 t2 u h1]
  split
  · rfl
  · rfl

/- ## Claim theorems -/

/-- C1 counterexample: on the three-task scenario (A 2 days no deps; B 3
days depends on A; C 1 day depends on A) the computed critical path is not
[A, B] and C's reported slack is not 2 days — because the backward pass
initialises a sink's latest finish with its own earliest finish, C has zero
slack and joins the critical path. -/
theorem c1_counterexample :
    exPath (calculateCriticalPathCore 10 c1Tasks) ≠ [some "A", some "B"] ∧
    exSlackOf (calculateCriticalPathCore 10 c1Tasks) (some "C") ≠ some 2 := by
  decide

/-- C1 (amended): on the three-task scenario the code returns the critical
path [A, B, C] with totalDurationDays = 5, and C's slack is 0 days (sink
tasks take their own earliest finish as latest finish, so every sink ends up
with zero slack). -/
theorem c1_critical_path_scenario :
    exPath (calculateCriticalPathCore 10 c1Tasks) = [some "A", some "B", some "C"] ∧
    exDurationDays (calculateCriticalPathCore 10 c1Tasks) = 5 ∧
    exSlackOf (calculateCriticalPathCore 10 c1Tasks) (some "C") = some 0 := by
  decide

/-- C2: the claim says the recursive CPM passes terminate on cyclic input by
short-circuiting re-entered nodes. They do not: the memo tables are written
only after the recursive loop, so on the cycle A ⇄ B the forward pass
re-enters for ever — for every stack budget, calculateCriticalPath ends in
the stack-overflow RangeError instead of a result. -/
theorem c2_cycle_stack_overflow : ∀ stackLimit : Nat,
    calculateCriticalPathCore stackLimit c2Tasks =
      .error "RangeError: Maximum call stack size exceeded" := by
  intro limit
  simp only [calculateCriticalPathCore]
  rw [if_neg (by decide)]
  rw [c2_forwardPass_error limit]
  rfl

/-- C2 witness: the divergence at the concrete stack budget 100. -/
theorem c2_cycle_stack_overflow_witness :
    calculateCriticalPathCore 100 c2Tasks =
      .error "RangeError: Maximum call stack size exceeded" :=
  c2_cycle_stack_overflow 100

/-- C3: every task produced by getGanttData has an empty dependency list
(the simplified converter hard-codes `dependencies: []`); consequently
conflict detection finds no dependency cycles, and in the critical-path
computation every task is a zero-slack sink appearing on the reported
critical path. -/
theorem c3_simplified_pipeline : ∀ (issues : List RawIssue) (stackLimit : Nat),
    1 ≤ stackLimit →
    (∀ t ∈ getGanttDataTasks issues, t.dependencies = []) ∧
    cycleConflictsOf (getGanttDataTasks issues) = [] ∧
    ∃ r, calculateCriticalPathFromIssues stackLimit issues = .ok r ∧
      (∀ t ∈ getGanttDataTasks issues, t.idReadable ∈ r.path) ∧
      (∀ m ∈ r.tasks, m.slack = 0) := by
  intro issues limit hl
  refine ⟨getGanttDataTasks_deps_nil issues,
    cycleConflictsOf_no_deps (getGanttDataTasks_deps_nil issues), ?_⟩
  exact core_no_deps _ limit hl (getGanttDataTasks_deps_nil issues)

/-- C3 witness: the pipeline invariants at a concrete two-issue input. -/
theorem c3_simplified_pipeline_witness :
    (∀ t ∈ getGanttDataTasks c3Issues, t.dependencies = []) ∧
    cycleConflictsOf (getGanttDataTasks c3Issues) = [] ∧
    ∃ r, calculateCriticalPathFromIssues 10 c3Issues = .ok r ∧
      (∀ t ∈ getGanttDataTasks c3Issues, t.idReadable ∈ r.path) ∧
      (∀ m ∈ r.tasks, m.slack = 0) :=
  c3_simplified_pipeline c3Issues 10 (by norm_num)

/-- C4 counterexample: a recorded zero-minute estimation is not kept
distinct from an absent one — `estimation?.minutes || 480` replaces it with
the 480-minute default, so the CPM duration is 8 hours where the claim's
formula gives 0. -/
theorem c4_counterexample :
    cpmDurationMs c4Task = 28800000 ∧ cpmDurationSpecMs c4Task = 0 ∧
    cpmDurationMs c4Task ≠ cpmDurationSpecMs c4Task := by
  decide

/-- C4 (amended): the CPM duration is `dueDate − startDate` when both dates
are present and nonzero, and otherwise m·60000 ms where m is the estimation
minutes when present and nonzero and 480 otherwise — i.e. both the date test
and the estimation fallback use JS truthiness, so zero values take the
fallback. -/
theorem c4_duration_truthiness : ∀ t : GanttTask,
    cpmDurationMs t = cpmDurationAmendedMs t := by
  intro t
  unfold cpmDurationMs cpmDurationAmendedMs jsTruthy jsOr
  cases hd : t.dueDate with
  | none =>
    cases he : t.estimation with
    | none => simp
    | some p => by_cases hm : p.minutes = 0 <;> simp [hm]
  | some d =>
    cases hs : t.startDate with
    | none =>
      cases he : t.estimation with
      | none => simp
      | some p => by_cases hm : p.minutes = 0 <;> simp [hm]
    | some s =>
      by_cases hdz : d = 0
      · cases he : t.estimation with
        | none => simp [hdz]
        | some p => by_cases hm : p.minutes = 0 <;> simp [hdz, hm]
      · by_cases hsz : s = 0
        · cases he : t.estimation with
          | none => simp [hdz, hsz]
          | some p => by_cases hm : p.minutes = 0 <;> simp [hdz, hsz, hm]
        · simp [hdz, hsz]

/-- C4 witness: the amended duration rule at a concrete task. -/
theorem c4_duration_truthiness_witness :
    cpmDurationMs c4Task2 = cpmDurationAmendedMs c4Task2 :=
  c4_duration_truthiness c4Task2

/-- C5: the claim says an out-of-scope depends_on target is dropped silently
and the computation completes. It does not: only the reverse-adjacency
insertion is guarded with `?.`; the forward adjacency keeps the dangling
target, and the forward pass dereferences the missing task (TypeError) for
every sufficient stack budget. -/
theorem c5_dangling_edge_typeerror : ∀ stackLimit : Nat, 2 ≤ stackLimit →
    calculateCriticalPathCore stackLimit c5Tasks =
      .error "TypeError: Cannot read properties of undefined" := by
  intro limit hl
  obtain ⟨l, rfl⟩ : ∃ l, limit = l + 2 := ⟨limit - 2, by omega⟩
  simp only [calculateCriticalPathCore]
  rw [if_neg (by decide)]
  rw [c5_forwardPass_error l]
  rfl

/-- C5 witness: the TypeError at the concrete stack budget 100. -/
theorem c5_dangling_edge_typeerror_witness :
    calculateCriticalPathCore 100 c5Tasks =
      .error "TypeError: Cannot read properties of undefined" :=
  c5_dangling_edge_typeerror 100 (by norm_num)

/-- C6 counterexample: an issue lacking its humanId (`idReadable`) does not
fail — the converter returns a Task whose `idReadable` is absent; there is
no MappingError anywhere in the conversion. -/
theorem c6_counterexample :
    convertIssueToGanttTaskSimplified c6Issue = .ok c6Task ∧
    c6Issue.idReadable = none :=
  ⟨rfl, rfl⟩

/-- C6 (amended): the converter produces exactly one Task whenever the
issue's project object is present (a missing humanId flows through as an
absent `idReadable`, not a failure); it fails only when `project` is
absent, and then with a TypeError rather than a MappingError; such a
failure is per-item — getGanttData catches it, skips the issue and
processes the remaining ones. -/
theorem c6_conversion_behavior :
    (∀ (issue : RawIssue) (proj : RawProject), issue.project = some proj →
      (convertIssueToGanttTaskSimplified issue).isOk = true) ∧
    (∀ issue : RawIssue, issue.project = none →
      convertIssueToGanttTaskSimplified issue =
        .error "TypeError: Cannot read properties of undefined") ∧
    (∀ (xs ys : List RawIssue) (bad : RawIssue), bad.project = none →
      (xs ++ bad :: ys).length ≤ 50 →
      getGanttDataTasks (xs ++ bad :: ys) = getGanttDataTasks (xs ++ ys)) := by
  refine ⟨?_, ?_, ?_⟩
  · intro issue proj hp
    rw [convert_project_some hp]
    rfl
  · intro issue hp
    exact convert_project_none hp
  · intro xs ys bad hbad hlen
    unfold getGanttDataTasks
    rw [List.take_of_length_le hlen]
    rw [List.take_of_length_le (by simp at hlen ⊢; omega)]
    simp [List.filterMap_append, List.filterMap_cons, convert_project_none hbad,
      Except.toOption]

/-- C6 witness: the conversion dichotomy and the per-item skip at concrete
inputs. -/
theorem c6_conversion_behavior_witness :
    (convertIssueToGanttTaskSimplified c6GoodIssue).isOk = true ∧
    convertIssueToGanttTaskSimplified c6BadIssue =
      .error "TypeError: Cannot read properties of undefined" ∧
    getGanttDataTasks ([c6GoodIssue] ++ c6BadIssue :: [c6Issue]) =
      getGanttDataTasks ([c6GoodIssue] ++ [c6Issue]) :=
  ⟨c6_conversion_behavior.1 c6GoodIssue ⟨"p", "P", "PR"⟩ rfl,
   c6_conversion_behavior.2.1 c6BadIssue rfl,
   c6_conversion_behavior.2.2 [c6GoodIssue] [c6Issue] c6BadIssue rfl (by decide)⟩

/-- C7 counterexample: with two matching start-date attributes (values day 1
and day 2), the resulting startDate is the later attribute's value — the
last parseable match wins, not the first encountered. -/
theorem c7_counterexample :
    exStartDate (convertIssueToGanttTaskSimplified c7Issue) = some 172800000 ∧
    (172800000 : Int) ≠ 86400000 :=
  ⟨rfl, by decide⟩

/-- C7 (amended): when the custom-field list ends with a matching start-date
(resp. due-date) attribute whose value parses, that last attribute's value
is the resulting startDate (resp. dueDate), overriding whatever earlier
attributes produced. -/
theorem c7_last_match_wins :
    (∀ (issue : RawIssue) (proj : RawProject) (fs : List RawField) (f : RawField)
      (v : Int),
      issue.project = some proj →
      issue.customFields = some (fs ++ [f]) →
      isStartDateField (jsToLower f.name) = true →
      parseDateFieldValue f.value = some v →
      exStartDate (convertIssueToGanttTaskSimplified issue) = some v) ∧
    (∀ (issue : RawIssue) (proj : RawProject) (fs : List RawField) (f : RawField)
      (v : Int),
      issue.project = some proj →
      issue.customFields = some (fs ++ [f]) →
      isStartDateField (jsToLower f.name) = false →
      isDueDateField (jsToLower f.name) = true →
      parseDateFieldValue f.value = some v →
      exDueDate (convertIssueToGanttTaskSimplified issue) = some v) := by
  constructor
  · intro issue proj fs f v hp hcf hsd hpv
    rw [convert_project_some hp]
    unfold exStartDate
    rw [hcf]
    simp only [Option.getD_some, List.foldl_append, List.foldl_cons, List.foldl_nil]
    unfold processField
    simp only [hsd, if_true, hpv]
  · intro issue proj fs f v hp hcf hsd hdd hpv
    rw [convert_project_some hp]
    unfold exDueDate
    rw [hcf]
    simp only [Option.getD_some, List.foldl_append, List.foldl_cons, List.foldl_nil]
    unfold processField
    simp only [hsd, hdd, if_true, Bool.false_eq_true, if_false, hpv]

/-- C7 witness: the last-wins rule at the concrete two-attribute issue. -/
theorem c7_last_match_wins_witness :
    exStartDate (convertIssueToGanttTaskSimplified c7Issue) = some 172800000 :=
  c7_last_match_wins.1 c7Issue ⟨"p", "P", "PR"⟩ [⟨"Start Date", .num 86400000⟩]
    ⟨"Custom Start Date", .num 172800000⟩ 172800000 rfl rfl (by decide) (by decide)

/-- C8: on depends-on edges forming exactly A→B→C→A, conflict detection
reports exactly one dependency-cycle conflict of severity high whose task
list is the path slice from the first revisited node through the repeat,
[A, B, C, A]; and a task set with no dependency edges yields zero cycle
conflicts. -/
theorem c8_cycle_detection :
    cycleConflictsOf c8Tasks =
      [⟨"dependency_cycle", [some "A", some "B", some "C", some "A"],
        "Circular dependency detected: A → B → C → A", "high"⟩] ∧
    (∀ tasks : List GanttTask, (∀ t ∈ tasks, t.dependencies = []) →
      cycleConflictsOf tasks = []) := by
  constructor
  · decide
  · intro tasks h
    exact cycleConflictsOf_no_deps h

/-- C8 witness: zero cycle conflicts on a concrete edge-free task set. -/
theorem c8_cycle_detection_witness :
    cycleConflictsOf [mkEstTask "Z" 480 []] = [] :=
  c8_cycle_detection.2 [mkEstTask "Z" 480 []] (by decide)

/-- C9 counterexample: t0z has both dates present (startDate is the epoch
instant 0) and its closed interval overlaps t510's under the claim's own
formula, and both share an assignee — yet no resource-overlap conflict is
emitted, because the truthiness guard `task.startDate && task.dueDate`
drops the zero timestamp from the assignee grouping. -/
theorem c9_counterexample :
    datesOverlap (t0z.startDate.getD 0) (t0z.dueDate.getD 0)
      (t510.startDate.getD 0) (t510.dueDate.getD 0) = true ∧
    t0z.assignee = some u1 ∧ t510.assignee = some u1 ∧
    t0z.startDate.isSome = true ∧ t0z.dueDate.isSome = true ∧
    t510.startDate.isSome = true ∧ t510.dueDate.isSome = true ∧
    resourceConflictsOf [t0z, t510] = [] := by
  decide

/-- C9 (amended): for two tasks sharing an assignee whose dates are present
and nonzero, a medium-severity resource-overlap conflict naming both tasks
and the assignee is emitted exactly when the closed intervals overlap
(start1 ≤ end2 and start2 ≤ end1); touching endpoints [day 1, day 5] /
[day 5, day 10] count as overlap, while [day 1, day 5] / [day 6, day 10] do
not. -/
theorem c9_resource_overlap :
    (∀ (t1 t2 : GanttTask) (u : YUser),
      t1.assignee = some u → t2.assignee = some u →
      jsTruthy t1.startDate = true → jsTruthy t1.dueDate = true →
      jsTruthy t2.startDate = true → jsTruthy t2.dueDate = true →
      resourceConflictsOf [t1, t2] =
        (if datesOverlap (t1.startDate.getD 0) (t1.dueDate.getD 0)
            (t2.startDate.getD 0) (t2.dueDate.getD 0) then
          [⟨"resource_conflict", [t1.idReadable, t2.idReadable],
            "Tasks overlap for assignee " ++ u.fullName, "medium"⟩]
        else [])) ∧
    resourceConflictsOf [t15, t510] =
      [⟨"resource_conflict", [some "T1", some "T2"],
        "Tasks overlap for assignee User One", "medium"⟩] ∧
    resourceConflictsOf [t15, t610] = [] := by
  refine ⟨?_, by decide, by decide⟩
  intro t1 t2 u h1 h2 hs1 hd1 hs2 hd2
  exact resourceConflicts_two t1 t2 u h1 h2 hs1 hd1 hs2 hd2

/-- C9 witness: the overlap rule at the touching-endpoint pair. -/
theorem c9_resource_overlap_witness :
    resourceConflictsOf [t15, t510] =
      (if datesOverlap (t15.startDate.getD 0) (t15.dueDate.getD 0)
          (t510.startDate.getD 0) (t510.dueDate.getD 0) then
        [⟨"resource_conflict", [t15.idReadable, t510.idReadable],
          "Tasks overlap for assignee " ++ u1.fullName, "medium"⟩]
      else []) :=
  c9_resource_overlap.1 t15 t510 u1 rfl rfl (by decide) (by decide) (by decide)
    (by decide)

/-- C10 counterexample: for a task whose startDate is present but equal to
the epoch instant 0, the code's `startDate || createdAt` falls back to
createdAt, so the timeline start is not the claim's `startDate ?? createdAt`. -/
theorem c10_counterexample :
    calculateTimeline 999 [tz] = ⟨86400000, 172800000, 1⟩ ∧
    tlStartSpec tz = 0 ∧
    (calculateTimeline 999 [tz]).startDate ≠ tlStartSpec tz := by
  decide

/-- C10 (amended): on an empty task set the timeline is {now, now, 0}; on a
non-empty set whose per-task bounds lie in the fold's clamping range, the
start is the minimum over tasks of `startDate || createdAt` and the end the
maximum over tasks of `dueDate || resolvedAt || updatedAt` (truthiness
fallbacks: a zero timestamp falls through), with durationDays the ceiling
of the day quotient of their difference. -/
theorem c10_timeline :
    (∀ now : Int, calculateTimeline now [] = ⟨now, now, 0⟩) ∧
    (∀ (now : Int) (tasks : List GanttTask), tasks ≠ [] →
      (∀ t ∈ tasks, tlStart t ≤ maxSafeInteger) →
      (∀ t ∈ tasks, 0 ≤ tlEnd t) →
      (calculateTimeline now tasks).startDate ∈ tasks.map tlStart ∧
      (∀ t ∈ tasks, (calculateTimeline now tasks).startDate ≤ tlStart t) ∧
      (calculateTimeline now tasks).endDate ∈ tasks.map tlEnd ∧
      (∀ t ∈ tasks, tlEnd t ≤ (calculateTimeline now tasks).endDate) ∧
      (calculateTimeline now tasks).duration =
        jsCeilDiv ((calculateTimeline now tasks).endDate -
          (calculateTimeline now tasks).startDate) 86400000) := by
  constructor
  · intro now
    rfl
  · intro now tasks hne hbound hpos
    have he : tasks.isEmpty = false := by
      cases tasks with
      | nil => exact absurd rfl hne
      | cons t ts => rfl
    unfold calculateTimeline
    simp only [he, Bool.false_eq_true, if_false]
    obtain ⟨t0, ht0⟩ : ∃ t, t ∈ tasks := by
      cases tasks with
      | nil => exact absurd rfl hne
      | cons t ts => exact ⟨t, List.mem_cons_self t ts⟩
    refine ⟨?_, ?_, ?_, ?_, trivial⟩
    · rcases foldl_min_cases tlStart tasks maxSafeInteger with h | ⟨t, ht, h⟩
      · have h1 := foldl_min_le_mem tlStart tasks maxSafeInteger t0 ht0
        have h4 : tlStart t0 ≤ tasks.foldl (fun acc t => min acc (tlStart t))
            maxSafeInteger := by
          rw [h]
          exact hbound t0 ht0
        exact List.mem_map.mpr ⟨t0, ht0, le_antisymm h4 h1⟩
      · exact List.mem_map.mpr ⟨t, ht, h.symm⟩
    · intro t ht
      exact foldl_min_le_mem tlStart tasks maxSafeInteger t ht
    · rcases foldl_max_cases tlEnd tasks 0 with h | ⟨t, ht, h⟩
      · have h1 := foldl_max_ge_mem tlEnd tasks 0 t0 ht0
        have h4 : tasks.foldl (fun acc t => max acc (tlEnd t)) 0 ≤ tlEnd t0 := by
          rw [h]
          exact hpos t0 ht0
        exact List.mem_map.mpr ⟨t0, ht0, le_antisymm h1 h4⟩
      · exact List.mem_map.mpr ⟨t, ht, h.symm⟩
    · intro t ht
      exact foldl_max_ge_mem tlEnd tasks 0 t ht

/-- C10 witness: the amended timeline rule at a concrete two-task set. -/
theorem c10_timeline_witness :
    (calculateTimeline 0 [c10a, c10b]).startDate ∈ [c10a, c10b].map tlStart ∧
    (∀ t ∈ [c10a, c10b], (calculateTimeline 0 [c10a, c10b]).startDate ≤ tlStart t) ∧
    (calculateTimeline 0 [c10a, c10b]).endDate ∈ [c10a, c10b].map tlEnd ∧
    (∀ t ∈ [c10a, c10b], tlEnd t ≤ (calculateTimeline 0 [c10a, c10b]).endDate) ∧
    (calculateTimeline 0 [c10a, c10b]).duration =
      jsCeilDiv ((calculateTimeline 0 [c10a, c10b]).endDate -
        (calculateTimeline 0 [c10a, c10b]).startDate) 86400000 :=
  c10_timeline.2 0 [c10a, c10b] (by decide) (by decide) (by decide)
